import Mathlib

/-!
Shallow embedding of the semantic-lowering pass of the `statig` procedural
macro (`src/macro/src/lower.rs`).  The analyzer output (`analyze::Model`) is
modelled as plain data, the `syn` syntax trees are modelled structurally as
far as the lowering pass inspects them, and the `abort!`/`todo!` fatal
diagnostics are modelled by an `Except` error monad.  `HashMap`s are modelled
as association lists; a list fixes one possible iteration order of the hash
map, so theorems quantifying over models cover every iteration order.
-/

set_option maxRecDepth 8192

namespace Statig

/-- Types of the surface language, as far as the lowering pass inspects them:
the unit type `()`, a plain path type (`Event`, `bool`, a generic parameter
`T`, ...), or a reference type with an optional lifetime, a mutability flag
and a referent. -/
inductive Ty where
  | unit : Ty
  | path (name : String) : Ty
  | ref (lifetime : Option String) (isMut : Bool) (elem : Ty) : Ty
deriving DecidableEq, Repr

/-- Mirror of `syn::GenericArgument` as used by `lower.rs`: a type argument or
a lifetime argument.  Const parameters are keyed by a type argument holding
the bare ident, exactly as `map_generics` does. -/
inductive GenericArgument where
  | ty (t : Ty)
  | lifetime (name : String)
deriving DecidableEq, Repr

/-- Mirror of `syn::GenericParam`: a type, lifetime or const parameter, with
its inline bound list carried opaquely. -/
inductive GenericParam where
  | tyParam (ident : String) (bounds : List String)
  | lifetimeParam (name : String) (bounds : List String)
  | constParam (ident : String) (constTy : Ty)
deriving DecidableEq, Repr

/-- Mirror of `syn::WherePredicate`: a type-bound predicate, a lifetime-bound
predicate, or an equality predicate (skipped by `map_generics`). -/
inductive WherePredicate where
  | typePred (bounded_ty : Ty) (bounds : List String)
  | lifetimePred (lifetime : String) (bounds : List String)
  | eqPred
deriving DecidableEq, Repr

/-- Mirror of `syn::Generics`: parameter list plus optional where-clause. -/
structure Generics where
  params : List GenericParam := []
  where_clause : Option (List WherePredicate) := none
deriving DecidableEq, Repr

/-- A typed handler parameter whose pattern is a simple name (the analyzer
validates all patterns to be plain idents before lowering runs). -/
structure PatType where
  name : String
  ty : Ty
deriving DecidableEq, Repr

/-- Mirror of `syn::FnArg`: the receiver (`&mut self`) or a typed argument. -/
inductive FnArg where
  | receiver
  | typed (name : String) (ty : Ty)
deriving DecidableEq, Repr

/-- A named field of a generated variant (`led: bool`). -/
structure Field where
  ident : String
  ty : Ty
deriving DecidableEq, Repr

/-- Whether the generated machine is awaitable (async) or blocking (sync). -/
inductive Mode where
  | awaitable
  | blocking
deriving DecidableEq, Repr

/-- The fatal diagnostics the lowering pass can raise.  Each constructor
corresponds to one `abort!`/`todo!`/`panic!` site in `lower.rs`; the
constructor name records the message text emitted there. -/
inductive LowerError where
  | superstateNotFound (name : String)
  | entryActionNotFound (name : String)
  | exitActionNotFound (name : String)
  | actionNotFound (name : String)
  | inputNotReference (name : String)
  | eventTypeNotReference
  | contextTypeNotReference
deriving DecidableEq, Repr

/-- Mirror of `analyze::StateMachine` (the fields `lower` reads). -/
structure Analyze.StateMachine where
  initial_state : String
  shared_storage_type : Ty
  shared_storage_ident : String
  shared_storage_generics : Generics
  candidates_generics : List GenericArgument
  event_type : Option Ty
  context_type : Option Ty
  state_ident : String
  state_derives : List String
  superstate_ident : String
  superstate_derives : List String
  on_transition : Option String
  on_dispatch : Option String
  visibility : String
  event_ident : String
  context_ident : String
deriving DecidableEq, Repr

/-- Mirror of `analyze::State`. -/
structure Analyze.State where
  handler_name : String
  superstate : Option String
  entry_action : Option String
  exit_action : Option String
  local_storage : List Field
  inputs : List FnArg
  shared_storage_input : Option FnArg
  event_arg : Option PatType
  context_arg : Option PatType
  state_inputs : List PatType
  candidates_generics : List GenericArgument
  is_async : Bool
deriving DecidableEq, Repr

/-- Mirror of `analyze::Superstate` (same shape as a state; its `superstate`
field is the optional parent superstate). -/
structure Analyze.Superstate where
  handler_name : String
  superstate : Option String
  entry_action : Option String
  exit_action : Option String
  local_storage : List Field
  inputs : List FnArg
  shared_storage_input : Option FnArg
  event_arg : Option PatType
  context_arg : Option PatType
  state_inputs : List PatType
  candidates_generics : List GenericArgument
  is_async : Bool
deriving DecidableEq, Repr

/-- Mirror of `analyze::Action`. -/
structure Analyze.Action where
  handler_name : String
  inputs : List FnArg
  is_async : Bool
deriving DecidableEq, Repr

/-- Mirror of `analyze::Model`.  The hash maps keyed by handler name are
modelled as association lists fixing one iteration order. -/
structure Analyze.Model where
  item_impl : String
  state_machine : Analyze.StateMachine
  states : List (String × Analyze.State)
  superstates : List (String × Analyze.Superstate)
  actions : List (String × Analyze.Action)
deriving DecidableEq, Repr

/-- A generated enum variant (`On { led: bool }`). -/
structure Variant where
  name : String
  fields : List Field
deriving DecidableEq, Repr

/-- A match pattern on a generated enum (`State::On { led, counter }`). -/
structure MatchPat where
  enum_ident : String
  variant_name : String
  fields : List String
deriving DecidableEq, Repr

/-- A handler dispatch call
(`Blinky::<T>::on(shared_storage, input, led).await`): the shared-storage
ident, its turbofish, the handler name, the argument idents in order, and
whether the call is awaited. -/
structure HandlerCall where
  storage_ident : String
  turbofish : List GenericArgument
  method : String
  args : List String
  awaited : Bool
deriving DecidableEq, Repr

/-- An entry/exit action call expression: the default empty block `{}` or a
bound handler call. -/
inductive ActionCall where
  | emptyBlock
  | call (c : HandlerCall)
deriving DecidableEq, Repr

/-- A state constructor
(`const fn on(led: bool) -> Self { Self::On { led } }`). -/
structure Constructor where
  name : String
  params : List Field
  variant_name : String
  fields : List String
deriving DecidableEq, Repr

/-- Mirror of `lower::State`.  The `superstate_pat` field `None`/
`Some(#pat)` is modelled as an `Option MatchPat`. -/
structure State where
  variant : Variant
  pat : MatchPat
  handler_call : HandlerCall
  entry_action_call : ActionCall
  exit_action_call : ActionCall
  superstate_pat : Option MatchPat
  constructor : Constructor
deriving DecidableEq, Repr

/-- Mirror of `lower::Superstate`. -/
structure Superstate where
  variant : Variant
  pat : MatchPat
  handler_call : HandlerCall
  entry_action_call : ActionCall
  exit_action_call : ActionCall
  superstate_pat : Option MatchPat
deriving DecidableEq, Repr

/-- Mirror of `lower::Action`. -/
structure Action where
  handler_call : HandlerCall
deriving DecidableEq, Repr

/-- Mirror of `lower::StateMachine` (the lowered machine-level data). -/
structure StateMachine where
  initial_state : String
  shared_storage_type : Ty
  shared_storage_generics : Generics
  event_type : Ty
  context_type : Ty
  state_ident : String
  state_derives : List String
  state_generics : Generics
  superstate_ident : String
  superstate_derives : List String
  superstate_generics : Generics
  on_transition : Option String
  on_dispatch : Option String
  visibility : String
  event_ident : String
  context_ident : String
  mode : Mode
deriving DecidableEq, Repr

/-- Mirror of `lower::Ir`. -/
structure Ir where
  item_impl : String
  state_machine : StateMachine
  states : List (String × State)
  superstates : List (String × Superstate)
deriving DecidableEq, Repr

/-- The crate constant `SUPERSTATE_LIFETIME` (the `'sub` scope lifetime);
the lifetime is stored without its leading tick. -/
def SUPERSTATE_LIFETIME : String := "sub"

/-- Lookup in an association list, modelling `HashMap::get`. -/
def lookupKey {α : Type} (key : String) : List (String × α) → Option α
  | [] => none
  | kv :: rest => if kv.1 = key then some kv.2 else lookupKey key rest

/-- Map the values of an association list with a fallible function,
modelling `iter().map(|(k, v)| (k.clone(), f(v))).collect()` where `f` may
abort the whole pass. -/
def mapValuesE {α β : Type} (f : String → α → Except LowerError β) :
    List (String × α) → Except LowerError (List (String × β))
  | [] => Except.ok []
  | kv :: rest =>
    match f kv.1 kv.2 with
    | Except.error e => Except.error e
    | Except.ok b =>
      match mapValuesE f rest with
      | Except.error e => Except.error e
      | Except.ok bs => Except.ok ((kv.1, b) :: bs)

/-- Map a list with a fallible function, modelling an iterator `map` whose
body may abort the whole pass. -/
def mapE {α β : Type} (f : α → Except LowerError β) :
    List α → Except LowerError (List β)
  | [] => Except.ok []
  | a :: rest =>
    match f a with
    | Except.error e => Except.error e
    | Except.ok b =>
      match mapE f rest with
      | Except.error e => Except.error e
      | Except.ok bs => Except.ok (b :: bs)

/-- Split a character list at every underscore (the semantics of Rust's
`str::split('_')`, including empty segments for leading, trailing and
doubled separators). -/
def splitUnderscore : List Char → List (List Char)
  | [] => [[]]
  | c :: cs =>
    match splitUnderscore cs with
    | [] => []
    | part :: parts =>
      if c = '_' then [] :: part :: parts else (c :: part) :: parts

/-- Mirror of `snake_case_to_pascal_case`'s per-segment step: uppercase the
first character and keep the rest (an empty segment stays empty). -/
def capitalize : List Char → List Char
  | [] => []
  | c :: cs => c.toUpper :: cs

/-- Mirror of `snake_case_to_pascal_case`: split the handler name on `_`,
capitalize every segment, concatenate. -/
def snake_case_to_pascal_case (snake : String) : String :=
  String.mk (((splitUnderscore snake.data).map capitalize).flatten)

/-- Mirror of `fn_arg_to_ident`: the receiver dispatches the shared storage,
a typed argument dispatches its bound name. -/
def fn_arg_to_ident : FnArg → String
  | FnArg.receiver => "shared_storage"
  | FnArg.typed name _ => name

/-- Mirror of `fn_arg_to_state_field`: a state input must be a reference and
the field takes the referent type; otherwise the pass aborts with
"input must be passed as a reference". -/
def fn_arg_to_state_field (pat_type : PatType) : Except LowerError Field :=
  match pat_type.ty with
  | Ty.ref _ _ elem => Except.ok { ident := pat_type.name, ty := elem }
  | _ => Except.error (LowerError.inputNotReference pat_type.name)

/-- Mirror of `fn_arg_to_superstate_field`: like the state case, but the
field keeps the reference with its lifetime replaced by the superstate scope
lifetime. -/
def fn_arg_to_superstate_field (pat_type : PatType) : Except LowerError Field :=
  match pat_type.ty with
  | Ty.ref _ isMut elem =>
      Except.ok
        { ident := pat_type.name, ty := Ty.ref (some SUPERSTATE_LIFETIME) isMut elem }
  | _ => Except.error (LowerError.inputNotReference pat_type.name)

/-- Mirror of the local-storage overlay step in `lower_state` and
`lower_superstate`: replace the first field with the same ident, else
append. -/
def replaceOrAppend : List Field → Field → List Field
  | [], f => [f]
  | g :: rest, f => if g.ident = f.ident then f :: rest else g :: replaceOrAppend rest f

/-- Overlay all local-storage fields over the inherited state-input fields. -/
def overlayFields (base : List Field) (locals : List Field) : List Field :=
  locals.foldl replaceOrAppend base

/-- The turbofish on dispatch calls: the shared storage type generics as
arguments (`split_for_impl().1.as_turbofish()`). -/
def GenericParam.toArgument : GenericParam → GenericArgument
  | GenericParam.tyParam ident _ => GenericArgument.ty (Ty.path ident)
  | GenericParam.lifetimeParam name _ => GenericArgument.lifetime name
  | GenericParam.constParam ident _ => GenericArgument.ty (Ty.path ident)

/-- Turbofish of the shared storage type used on every dispatch call. -/
def storageTurbofish (sm : Analyze.StateMachine) : List GenericArgument :=
  sm.shared_storage_generics.params.map GenericParam.toArgument

/-- Mirror of `lower_state`. -/
def lower_state (state : Analyze.State) (sm : Analyze.StateMachine) :
    Except LowerError State :=
  match mapE fn_arg_to_state_field state.state_inputs with
  | Except.error e => Except.error e
  | Except.ok inherited =>
    let variant_name := snake_case_to_pascal_case state.handler_name
    let variant_fields := overlayFields inherited state.local_storage
    let pat_fields := variant_fields.map Field.ident
    let handler_inputs := state.inputs.map fn_arg_to_ident
    Except.ok
      { variant := { name := variant_name, fields := variant_fields }
        pat :=
          { enum_ident := sm.state_ident, variant_name := variant_name
            fields := pat_fields }
        handler_call :=
          { storage_ident := sm.shared_storage_ident, turbofish := storageTurbofish sm
            method := state.handler_name, args := handler_inputs
            awaited := state.is_async }
        entry_action_call := ActionCall.emptyBlock
        exit_action_call := ActionCall.emptyBlock
        superstate_pat := none
        constructor :=
          { name := state.handler_name, params := variant_fields
            variant_name := variant_name, fields := pat_fields } }

/-- Mirror of `lower_superstate` (no constructor; fields carry the scope
lifetime). -/
def lower_superstate (superstate : Analyze.Superstate) (sm : Analyze.StateMachine) :
    Except LowerError Superstate :=
  match mapE fn_arg_to_superstate_field superstate.state_inputs with
  | Except.error e => Except.error e
  | Except.ok inherited =>
    let superstate_name := snake_case_to_pascal_case superstate.handler_name
    let variant_fields := overlayFields inherited superstate.local_storage
    let pat_fields := variant_fields.map Field.ident
    let handler_inputs := superstate.inputs.map fn_arg_to_ident
    Except.ok
      { variant := { name := superstate_name, fields := variant_fields }
        pat :=
          { enum_ident := sm.superstate_ident, variant_name := superstate_name
            fields := pat_fields }
        handler_call :=
          { storage_ident := sm.shared_storage_ident, turbofish := storageTurbofish sm
            method := superstate.handler_name, args := handler_inputs
            awaited := superstate.is_async }
        entry_action_call := ActionCall.emptyBlock
        exit_action_call := ActionCall.emptyBlock
        superstate_pat := none }

/-- Mirror of the argument loop in `lower_action`: a receiver is inserted at
position 0 of the accumulated list, a typed argument is pushed at the end. -/
def actionCallInputs (inputs : List FnArg) : List String :=
  inputs.foldl
    (fun acc input =>
      match input with
      | FnArg.receiver => "shared_storage" :: acc
      | FnArg.typed name _ => acc ++ [name])
    []

/-- Mirror of `lower_action`. -/
def lower_action (action : Analyze.Action) (sm : Analyze.StateMachine) : Action :=
  { handler_call :=
      { storage_ident := sm.shared_storage_ident, turbofish := storageTurbofish sm
        method := action.handler_name, args := actionCallInputs action.inputs
        awaited := action.is_async } }

/-- Build phase over all states (`model.states.iter().map(lower_state)`). -/
def buildStates (model : Analyze.Model) : Except LowerError (List (String × State)) :=
  mapValuesE (fun _ s => lower_state s model.state_machine) model.states

/-- Build phase over all superstates. -/
def buildSuperstates (model : Analyze.Model) :
    Except LowerError (List (String × Superstate)) :=
  mapValuesE (fun _ s => lower_superstate s model.state_machine) model.superstates

/-- Build phase over all actions (infallible). -/
def buildActions (model : Analyze.Model) : List (String × Action) :=
  model.actions.map (fun kv => (kv.1, lower_action kv.2 model.state_machine))

/-- Exit-action linking of one state: look the declared name up in the
action map, bind the handler call, abort with "exit action not found"
otherwise. -/
def linkStateExit (model : Analyze.Model) (actions : List (String × Action))
    (key : String) (st : State) : Except LowerError State :=
  match Option.bind (lookupKey key model.states) (fun s => s.exit_action) with
  | some xa =>
    match lookupKey xa actions with
    | none => Except.error (LowerError.exitActionNotFound xa)
    | some a =>
        Except.ok { st with exit_action_call := ActionCall.call a.handler_call }
  | none => Except.ok st

/-- Entry-action linking of one state, aborting with "entry action not
found" on a dangling name, then exit-action linking. -/
def linkStateEntry (model : Analyze.Model) (actions : List (String × Action))
    (key : String) (st : State) : Except LowerError State :=
  match Option.bind (lookupKey key model.states) (fun s => s.entry_action) with
  | some ea =>
    match lookupKey ea actions with
    | none => Except.error (LowerError.entryActionNotFound ea)
    | some a =>
        linkStateExit model actions key
          { st with entry_action_call := ActionCall.call a.handler_call }
  | none => linkStateExit model actions key st

/-- Superstate linking of one state ("superstate not found" on a dangling
name), then entry/exit action linking; mirror of the first linking loop of
`lower`. -/
def linkState (model : Analyze.Model) (superstates : List (String × Superstate))
    (actions : List (String × Action)) (key : String) (st : State) :
    Except LowerError State :=
  match Option.bind (lookupKey key model.states) (fun s => s.superstate) with
  | some sup =>
    match lookupKey sup superstates with
    | none => Except.error (LowerError.superstateNotFound sup)
    | some target =>
        linkStateEntry model actions key { st with superstate_pat := some target.pat }
  | none => linkStateEntry model actions key st

/-- Exit-action linking of one superstate; the source aborts with the
untagged message "action not found" here. -/
def linkSuperstateExit (model : Analyze.Model) (actions : List (String × Action))
    (key : String) (ss : Superstate) : Except LowerError Superstate :=
  match Option.bind (lookupKey key model.superstates) (fun s => s.exit_action) with
  | some xa =>
    match lookupKey xa actions with
    | none => Except.error (LowerError.actionNotFound xa)
    | some a =>
        Except.ok { ss with exit_action_call := ActionCall.call a.handler_call }
  | none => Except.ok ss

/-- Entry-action linking of one superstate (untagged "action not found"),
then exit-action linking. -/
def linkSuperstateEntry (model : Analyze.Model) (actions : List (String × Action))
    (key : String) (ss : Superstate) : Except LowerError Superstate :=
  match Option.bind (lookupKey key model.superstates) (fun s => s.entry_action) with
  | some ea =>
    match lookupKey ea actions with
    | none => Except.error (LowerError.actionNotFound ea)
    | some a =>
        linkSuperstateExit model actions key
          { ss with entry_action_call := ActionCall.call a.handler_call }
  | none => linkSuperstateExit model actions key ss

/-- Parent-superstate linking of one superstate: the lookup goes to the
pre-linking clone of the superstate map (`superstates_clone`), then entry
and exit action linking; mirror of the second linking loop of `lower`. -/
def linkSuperstate (model : Analyze.Model)
    (superstates_clone : List (String × Superstate))
    (actions : List (String × Action)) (key : String) (ss : Superstate) :
    Except LowerError Superstate :=
  match Option.bind (lookupKey key model.superstates) (fun s => s.superstate) with
  | some sup =>
    match lookupKey sup superstates_clone with
    | none => Except.error (LowerError.superstateNotFound sup)
    | some target =>
        linkSuperstateEntry model actions key
          { ss with superstate_pat := some target.pat }
  | none => linkSuperstateEntry model actions key ss

/-- Linking pass over all states. -/
def linkStates (model : Analyze.Model) (superstates : List (String × Superstate))
    (actions : List (String × Action)) (states : List (String × State)) :
    Except LowerError (List (String × State)) :=
  mapValuesE (linkState model superstates actions) states

/-- Linking pass over all superstates (looking parents up in the
pre-linking clone). -/
def linkSuperstates (model : Analyze.Model)
    (superstates_clone : List (String × Superstate))
    (actions : List (String × Action)) (superstates : List (String × Superstate)) :
    Except LowerError (List (String × Superstate)) :=
  mapValuesE (linkSuperstate model superstates_clone actions) superstates

/-- Accumulator of the whole-model scan of `lower` (mode plus inferred
event/context types). -/
structure ScanAcc where
  mode : Mode
  event_type : Option Ty
  context_type : Option Ty
deriving DecidableEq, Repr

/-- One event-parameter inspection: when a handler binds a parameter named
like the configured event ident, its referenced type overwrites the current
candidate; a non-reference type hits the `todo!()` in the source. -/
def scanEventArg (event_ident : String) (current : Option Ty)
    (arg : Option PatType) : Except LowerError (Option Ty) :=
  match arg with
  | none => Except.ok current
  | some pt =>
    if pt.name = event_ident then
      match pt.ty with
      | Ty.ref _ _ elem => Except.ok (some elem)
      | _ => Except.error LowerError.eventTypeNotReference
    else Except.ok current

/-- One context-parameter inspection, symmetric to the event case. -/
def scanContextArg (context_ident : String) (current : Option Ty)
    (arg : Option PatType) : Except LowerError (Option Ty) :=
  match arg with
  | none => Except.ok current
  | some pt =>
    if pt.name = context_ident then
      match pt.ty with
      | Ty.ref _ _ elem => Except.ok (some elem)
      | _ => Except.error LowerError.contextTypeNotReference
    else Except.ok current

/-- Scan loop over the states: event type, context type and mode, exactly as
the first scan loop of `lower`. -/
def scanStates (sm : Analyze.StateMachine) :
    List (String × Analyze.State) → ScanAcc → Except LowerError ScanAcc
  | [], acc => Except.ok acc
  | kv :: rest, acc =>
    match scanEventArg sm.event_ident acc.event_type kv.2.event_arg with
    | Except.error e => Except.error e
    | Except.ok ev =>
      match scanContextArg sm.context_ident acc.context_type kv.2.context_arg with
      | Except.error e => Except.error e
      | Except.ok ctx =>
        scanStates sm rest
          { mode := if kv.2.is_async then Mode.awaitable else acc.mode
            event_type := ev, context_type := ctx }

/-- Scan loop over the superstates, symmetric to `scanStates`. -/
def scanSuperstates (sm : Analyze.StateMachine) :
    List (String × Analyze.Superstate) → ScanAcc → Except LowerError ScanAcc
  | [], acc => Except.ok acc
  | kv :: rest, acc =>
    match scanEventArg sm.event_ident acc.event_type kv.2.event_arg with
    | Except.error e => Except.error e
    | Except.ok ev =>
      match scanContextArg sm.context_ident acc.context_type kv.2.context_arg with
      | Except.error e => Except.error e
      | Except.ok ctx =>
        scanSuperstates sm rest
          { mode := if kv.2.is_async then Mode.awaitable else acc.mode
            event_type := ev, context_type := ctx }

/-- Scan loop over the actions: only the mode is updated. -/
def scanActions (actions : List (String × Analyze.Action)) (m : Mode) : Mode :=
  actions.foldl (fun cur kv => if kv.2.is_async then Mode.awaitable else cur) m

/-- Mirror of `map_generics`' second loop body: push the predicate onto the
first map entry whose argument matches. -/
def addPredicate :
    List (GenericArgument × GenericParam × List WherePredicate) → GenericArgument →
      WherePredicate → List (GenericArgument × GenericParam × List WherePredicate)
  | [], _, _ => []
  | entry :: rest, arg, pred =>
    if entry.1 = arg then (entry.1, entry.2.1, entry.2.2 ++ [pred]) :: rest
    else entry :: addPredicate rest arg pred

/-- Key of a where predicate, as computed by `map_generics` (`Eq` predicates
are skipped). -/
def WherePredicate.argument : WherePredicate → Option GenericArgument
  | WherePredicate.typePred bounded_ty _ => some (GenericArgument.ty bounded_ty)
  | WherePredicate.lifetimePred lifetime _ => some (GenericArgument.lifetime lifetime)
  | WherePredicate.eqPred => none

/-- Mirror of `map_generics`: associate every generic parameter of the
shared storage type, in declaration order, with its re-associated where
clause predicates. -/
def map_generics (generics : Generics) :
    List (GenericArgument × GenericParam × List WherePredicate) :=
  let base := generics.params.map
    (fun param => (param.toArgument, param, ([] : List WherePredicate)))
  (generics.where_clause.getD []).foldl
    (fun m predicate =>
      match predicate.argument with
      | none => m
      | some arg => addPredicate m arg predicate)
    base

/-- Membership test of the intersection of the machine's candidate generics
with a merged per-type candidate set (`HashSet::intersection` + `contains`). -/
def allowedArguments (machineCandidates merged : List GenericArgument)
    (key : GenericArgument) : Bool :=
  machineCandidates.contains key && merged.contains key

/-- Mirror of the filtered-generics loop of `lower`: walk the generics map in
shared declaration order, keep the allowed parameters and extend the where
clause by their predicates (the clause springs into existence with the first
kept parameter). -/
def buildFilteredGenerics
    (gmap : List (GenericArgument × GenericParam × List WherePredicate))
    (allowed : GenericArgument → Bool) : Generics :=
  gmap.foldl
    (fun g entry =>
      if allowed entry.1 then
        { params := g.params ++ [entry.2.1]
          where_clause :=
            match g.where_clause with
            | some ps => some (ps ++ entry.2.2)
            | none => some entry.2.2 }
      else g)
    { params := [], where_clause := none }

/-- Merged candidate generics of the state enum: union over the states'
recorded per-variant sets. -/
def mergedStateCandidates (model : Analyze.Model) : List GenericArgument :=
  model.states.foldl (fun acc kv => acc ++ kv.2.candidates_generics) []

/-- Merged candidate generics of the superstate enum.  NB: the source
iterates `model.states` here as well (`lower.rs` lines 364-368), although
its own comment says the loop merges the sets "of the superstate enum
variant"; the superstates' recorded sets are never read. -/
def mergedSuperstateCandidates (model : Analyze.Model) : List GenericArgument :=
  model.states.foldl (fun acc kv => acc ++ kv.2.candidates_generics) []

/-- Filtered generics of the state enum. -/
def stateGenericsOf (model : Analyze.Model) : Generics :=
  buildFilteredGenerics (map_generics model.state_machine.shared_storage_generics)
    (allowedArguments model.state_machine.candidates_generics
      (mergedStateCandidates model))

/-- The synthetic scope lifetime: conjured exactly when some superstate has a
non-empty state-input list (the `inspect` in `lower`). -/
def superstateLifetime (model : Analyze.Model) : Option String :=
  if model.superstates.any (fun kv => !kv.2.state_inputs.isEmpty) then
    some SUPERSTATE_LIFETIME
  else none

/-- Filtered generics of the superstate enum, before the synthetic scope
lifetime is considered. -/
def superstateFilteredGenerics (model : Analyze.Model) : Generics :=
  buildFilteredGenerics
    (map_generics model.state_machine.shared_storage_generics)
    (allowedArguments model.state_machine.candidates_generics
      (mergedSuperstateCandidates model))

/-- Filtered generics of the superstate enum, with the synthetic scope
lifetime appended when conjured. -/
def superstateGenericsOf (model : Analyze.Model) : Generics :=
  match superstateLifetime model with
  | some lt =>
      { superstateFilteredGenerics model with
          params := (superstateFilteredGenerics model).params
            ++ [GenericParam.lifetimeParam lt []] }
  | none => superstateFilteredGenerics model

/-- Resolved event type: the explicit machine-level declaration wins, else
the inferred candidate, else the unit type. -/
def resolvedEventType (model : Analyze.Model) (acc : ScanAcc) : Ty :=
  model.state_machine.event_type.getD (acc.event_type.getD Ty.unit)

/-- Resolved context type, symmetric to the event type. -/
def resolvedContextType (model : Analyze.Model) (acc : ScanAcc) : Ty :=
  model.state_machine.context_type.getD (acc.context_type.getD Ty.unit)

/-- Final assembly of the IR from the linked descriptor maps and the scan
results (the tail of `lower`; purely structural). -/
def assembleIr (model : Analyze.Model) (acc : ScanAcc)
    (states : List (String × State)) (superstates : List (String × Superstate)) :
    Ir :=
  { item_impl := model.item_impl
    state_machine :=
      { initial_state := model.state_machine.initial_state
        shared_storage_type := model.state_machine.shared_storage_type
        shared_storage_generics := model.state_machine.shared_storage_generics
        event_type := resolvedEventType model acc
        context_type := resolvedContextType model acc
        state_ident := model.state_machine.state_ident
        state_derives := model.state_machine.state_derives
        state_generics := stateGenericsOf model
        superstate_ident := model.state_machine.superstate_ident
        superstate_derives := model.state_machine.superstate_derives
        superstate_generics := superstateGenericsOf model
        on_transition := model.state_machine.on_transition
        on_dispatch := model.state_machine.on_dispatch
        visibility := model.state_machine.visibility
        event_ident := model.state_machine.event_ident
        context_ident := model.state_machine.context_ident
        mode := scanActions model.actions acc.mode }
    states := states
    superstates := superstates }

/-- Mirror of `lower`: build all descriptors, link states, link superstates,
scan for event/context types and the mode, partition the generics, and
assemble the IR; any `abort!`/`todo!` in the source is an error here. -/
def lower (model : Analyze.Model) : Except LowerError Ir :=
  match buildStates model with
  | Except.error e => Except.error e
  | Except.ok states0 =>
    match buildSuperstates model with
    | Except.error e => Except.error e
    | Except.ok superstates0 =>
      match linkStates model superstates0 (buildActions model) states0 with
      | Except.error e => Except.error e
      | Except.ok states =>
        match linkSuperstates model superstates0 (buildActions model) superstates0 with
        | Except.error e => Except.error e
        | Except.ok superstates =>
          match scanStates model.state_machine model.states
              { mode := Mode.blocking, event_type := none, context_type := none } with
          | Except.error e => Except.error e
          | Except.ok acc1 =>
            match scanSuperstates model.state_machine model.superstates acc1 with
            | Except.error e => Except.error e
            | Except.ok acc2 => Except.ok (assembleIr model acc2 states superstates)

/-- The inferred-type candidate contributed by one handler parameter: the
referenced type, when the parameter is bound to the configured ident and its
declared type is a reference. -/
def eventArgCandidate (ident : String) (arg : Option PatType) : Option Ty :=
  match arg with
  | none => none
  | some pt =>
    if pt.name = ident then
      match pt.ty with
      | Ty.ref _ _ elem => some elem
      | _ => none
    else none

/-- All event-type candidates of a model, in the scan order of `lower`
(states first, then superstates). -/
def eventCandidates (model : Analyze.Model) : List Ty :=
  model.states.filterMap
      (fun kv => eventArgCandidate model.state_machine.event_ident kv.2.event_arg)
    ++ model.superstates.filterMap
      (fun kv => eventArgCandidate model.state_machine.event_ident kv.2.event_arg)

/-- All context-type candidates of a model, in scan order. -/
def contextCandidates (model : Analyze.Model) : List Ty :=
  model.states.filterMap
      (fun kv => eventArgCandidate model.state_machine.context_ident kv.2.context_arg)
    ++ model.superstates.filterMap
      (fun kv => eventArgCandidate model.state_machine.context_ident kv.2.context_arg)

/-- Last-writer-wins accumulation of a candidate list over a current
candidate. -/
def lastOr (cs : List Ty) (cur : Option Ty) : Option Ty :=
  match cs.getLast? with
  | some t => some t
  | none => cur

/-! Concrete fixtures, mirroring the `create_analyze_*` test fixtures of
`lower.rs` plus a few small models exercising single features. -/

/-- The blinky machine of the source's test fixtures. -/
def blinkyMachine : Analyze.StateMachine :=
  { initial_state := "State::on()"
    shared_storage_type := Ty.path "Blinky"
    shared_storage_ident := "Blinky"
    shared_storage_generics := {}
    candidates_generics := []
    event_type := none
    context_type := none
    state_ident := "State"
    state_derives := ["Copy", "Clone"]
    superstate_ident := "Superstate"
    superstate_derives := ["Copy", "Clone"]
    on_transition := none
    on_dispatch := none
    visibility := "pub"
    event_ident := "input"
    context_ident := "context" }

/-- The `on` state of the source's test fixtures. -/
def onState : Analyze.State :=
  { handler_name := "on"
    superstate := some "playing"
    entry_action := some "enter_on"
    exit_action := none
    local_storage := []
    inputs :=
      [FnArg.receiver,
       FnArg.typed "input" (Ty.ref none false (Ty.path "Event")),
       FnArg.typed "led" (Ty.ref none true (Ty.path "bool")),
       FnArg.typed "counter" (Ty.ref none true (Ty.path "usize"))]
    shared_storage_input := some FnArg.receiver
    event_arg := some { name := "event", ty := Ty.ref none false (Ty.path "Event") }
    context_arg := none
    state_inputs :=
      [{ name := "led", ty := Ty.ref none true (Ty.path "bool") },
       { name := "counter", ty := Ty.ref none true (Ty.path "usize") }]
    candidates_generics := []
    is_async := false }

/-- The `playing` superstate of the source's test fixtures. -/
def playingSuperstate : Analyze.Superstate :=
  { handler_name := "playing"
    superstate := none
    entry_action := none
    exit_action := none
    local_storage := []
    inputs :=
      [FnArg.receiver,
       FnArg.typed "input" (Ty.ref none false (Ty.path "Event")),
       FnArg.typed "led" (Ty.ref none true (Ty.path "bool")),
       FnArg.typed "counter" (Ty.ref none true (Ty.path "usize"))]
    shared_storage_input := some FnArg.receiver
    event_arg := some { name := "event", ty := Ty.ref none false (Ty.path "Event") }
    context_arg := none
    state_inputs :=
      [{ name := "led", ty := Ty.ref none true (Ty.path "bool") },
       { name := "counter", ty := Ty.ref none true (Ty.path "usize") }]
    candidates_generics := []
    is_async := false }

/-- The `enter_on` action of the source's test fixtures. -/
def enterOnAction : Analyze.Action :=
  { handler_name := "enter_on"
    inputs := [FnArg.receiver, FnArg.typed "led" (Ty.ref none true (Ty.path "bool"))]
    is_async := false }

/-- The blinky model of the source's test fixtures. -/
def blinkyModel : Analyze.Model :=
  { item_impl := "impl Blinky"
    state_machine := blinkyMachine
    states := [("on", onState)]
    superstates := [("playing", playingSuperstate)]
    actions := [("enter_on", enterOnAction)] }

/-- The lowered `on` state before linking (the source's
`create_lower_state`). -/
def onLoweredState : State :=
  { variant :=
      { name := "On"
        fields :=
          [{ ident := "led", ty := Ty.path "bool" },
           { ident := "counter", ty := Ty.path "usize" }] }
    pat := { enum_ident := "State", variant_name := "On", fields := ["led", "counter"] }
    handler_call :=
      { storage_ident := "Blinky", turbofish := [], method := "on"
        args := ["shared_storage", "input", "led", "counter"], awaited := false }
    entry_action_call := ActionCall.emptyBlock
    exit_action_call := ActionCall.emptyBlock
    superstate_pat := none
    constructor :=
      { name := "on"
        params :=
          [{ ident := "led", ty := Ty.path "bool" },
           { ident := "counter", ty := Ty.path "usize" }]
        variant_name := "On", fields := ["led", "counter"] } }

/-- The lowered `playing` superstate (the source's
`create_lower_superstate`). -/
def playingLoweredSuperstate : Superstate :=
  { variant :=
      { name := "Playing"
        fields :=
          [{ ident := "led", ty := Ty.ref (some "sub") true (Ty.path "bool") },
           { ident := "counter", ty := Ty.ref (some "sub") true (Ty.path "usize") }] }
    pat :=
      { enum_ident := "Superstate", variant_name := "Playing"
        fields := ["led", "counter"] }
    handler_call :=
      { storage_ident := "Blinky", turbofish := [], method := "playing"
        args := ["shared_storage", "input", "led", "counter"], awaited := false }
    entry_action_call := ActionCall.emptyBlock
    exit_action_call := ActionCall.emptyBlock
    superstate_pat := none }

/-- A machine with one candidate type parameter `T` bounded by `Clone`. -/
def genericMachine : Analyze.StateMachine :=
  { blinkyMachine with
      shared_storage_generics :=
        { params := [GenericParam.tyParam "T" []]
          where_clause := some [WherePredicate.typePred (Ty.path "T") ["Clone"]] }
      candidates_generics := [GenericArgument.ty (Ty.path "T")] }

/-- A superstate whose fields reference the generic parameter `T` (recorded
in its `candidates_generics` set by the analyzer); its state-input list is
empty so no scope lifetime is conjured. -/
def genericSuperstate : Analyze.Superstate :=
  { playingSuperstate with
      handler_name := "holding"
      superstate := none
      entry_action := none
      exit_action := none
      inputs := [FnArg.receiver]
      event_arg := none
      state_inputs := []
      local_storage := [{ ident := "value", ty := Ty.path "T" }]
      candidates_generics := [GenericArgument.ty (Ty.path "T")] }

/-- Failing input of the generics partition: the only handler referencing
`T` is a superstate, no state references any generic parameter. -/
def genericOnlySuperstateModel : Analyze.Model :=
  { item_impl := "impl Holder"
    state_machine := genericMachine
    states := []
    superstates := [("holding", genericSuperstate)]
    actions := [] }

/-- Two states binding the configured event ident `input` to two different
referenced types; no explicit event type is declared. -/
def twoEventStatesModel : Analyze.Model :=
  { item_impl := "impl Two"
    state_machine := blinkyMachine
    states :=
      [("a_state",
        { onState with
            handler_name := "a_state", superstate := none, entry_action := none
            state_inputs := []
            inputs := [FnArg.receiver, FnArg.typed "input" (Ty.ref none false (Ty.path "EventA"))]
            event_arg := some { name := "input", ty := Ty.ref none false (Ty.path "EventA") } }),
       ("b_state",
        { onState with
            handler_name := "b_state", superstate := none, entry_action := none
            state_inputs := []
            inputs := [FnArg.receiver, FnArg.typed "input" (Ty.ref none false (Ty.path "EventB"))]
            event_arg := some { name := "input", ty := Ty.ref none false (Ty.path "EventB") } })]
    superstates := []
    actions := [] }

/-- A superstate declaring an entry action that has no matching action
descriptor. -/
def danglingSuperstateEntryModel : Analyze.Model :=
  { item_impl := "impl Dangling"
    state_machine := blinkyMachine
    states := []
    superstates :=
      [("playing", { playingSuperstate with entry_action := some "missing" })]
    actions := [] }

/-- The `on` state after linking (the source's `create_linked_lower_state`). -/
def onLinkedState : State :=
  { onLoweredState with
      superstate_pat :=
        some { enum_ident := "Superstate", variant_name := "Playing"
               fields := ["led", "counter"] }
      entry_action_call :=
        ActionCall.call
          { storage_ident := "Blinky", turbofish := [], method := "enter_on"
            args := ["shared_storage", "led"], awaited := false } }

/-- The fully lowered blinky IR (the source's `create_lower_model`). -/
def blinkyLoweredIr : Ir :=
  { item_impl := "impl Blinky"
    state_machine :=
      { initial_state := "State::on()"
        shared_storage_type := Ty.path "Blinky"
        shared_storage_generics := {}
        event_type := Ty.unit
        context_type := Ty.unit
        state_ident := "State"
        state_derives := ["Copy", "Clone"]
        state_generics := {}
        superstate_ident := "Superstate"
        superstate_derives := ["Copy", "Clone"]
        superstate_generics := { params := [GenericParam.lifetimeParam "sub" []] }
        on_transition := none
        on_dispatch := none
        visibility := "pub"
        event_ident := "input"
        context_ident := "context"
        mode := Mode.blocking }
    states := [("on", onLinkedState)]
    superstates := [("playing", playingLoweredSuperstate)] }

/-! Helper lemmas about the association-list and traversal combinators. -/

theorem lookupKey_mem {α : Type} {key : String} {v : α} :
    ∀ {l : List (String × α)}, lookupKey key l = some v → (key, v) ∈ l := by
  intro l
  induction l with
  | nil => intro h; simp [lookupKey] at h
  | cons kv rest ih =>
    intro h
    obtain ⟨k1, v1⟩ := kv
    simp only [lookupKey] at h
    by_cases hk : k1 = key
    · rw [if_pos hk] at h
      injection h with h
      subst hk; subst h
      exact List.mem_cons_self _ _
    · rw [if_neg hk] at h
      exact List.mem_cons_of_mem _ (ih h)

theorem lookupKey_eq_some_of_mem {α : Type} {key : String} {v : α}
    {l : List (String × α)} (hmem : (key, v) ∈ l)
    (hnodup : (l.map Prod.fst).Nodup) : lookupKey key l = some v := by
  induction l with
  | nil => simp at hmem
  | cons kv rest ih =>
    obtain ⟨k1, v1⟩ := kv
    simp only [List.map_cons, List.nodup_cons] at hnodup
    rcases List.mem_cons.mp hmem with heq | hmem'
    · injection heq with h1 h2
      subst h1; subst h2
      simp [lookupKey]
    · have hk : k1 ≠ key := by
        intro hk
        subst hk
        exact hnodup.1 (List.mem_map.mpr ⟨(k1, v), hmem', rfl⟩)
      simp only [lookupKey, if_neg hk]
      exact ih hmem' hnodup.2

theorem lookupKey_none_of_not_mem_keys {α : Type} {key : String}
    {l : List (String × α)} (h : key ∉ l.map Prod.fst) : lookupKey key l = none := by
  induction l with
  | nil => rfl
  | cons kv rest ih =>
    obtain ⟨k1, v1⟩ := kv
    simp only [List.map_cons, List.mem_cons] at h
    push_neg at h
    simp only [lookupKey, if_neg (Ne.symm h.1)]
    exact ih h.2

theorem mem_keys_of_lookupKey_some {α : Type} {key : String} {v : α}
    {l : List (String × α)} (h : lookupKey key l = some v) :
    key ∈ l.map Prod.fst :=
  List.mem_map.mpr ⟨(key, v), lookupKey_mem h, rfl⟩

theorem mapValuesE_keys {α β : Type} {f : String → α → Except LowerError β} :
    ∀ {l : List (String × α)} {l' : List (String × β)},
      mapValuesE f l = Except.ok l' → l'.map Prod.fst = l.map Prod.fst := by
  intro l
  induction l with
  | nil => intro l' h; simp only [mapValuesE] at h; injection h with h; subst h; rfl
  | cons kv rest ih =>
    intro l' h
    simp only [mapValuesE] at h
    cases hf : f kv.1 kv.2 with
    | error e => rw [hf] at h; exact Except.noConfusion h
    | ok b =>
      rw [hf] at h
      cases hr : mapValuesE f rest with
      | error e => rw [hr] at h; exact Except.noConfusion h
      | ok bs =>
        rw [hr] at h
        injection h with h
        subst h
        simp [ih hr]

theorem mapValuesE_mem_src {α β : Type} {f : String → α → Except LowerError β} :
    ∀ {l : List (String × α)} {l' : List (String × β)} {k : String} {b : β},
      mapValuesE f l = Except.ok l' → (k, b) ∈ l' →
        ∃ a, (k, a) ∈ l ∧ f k a = Except.ok b := by
  intro l
  induction l with
  | nil =>
    intro l' k b h hmem
    simp only [mapValuesE] at h
    injection h with h
    subst h
    simp at hmem
  | cons kv rest ih =>
    intro l' k b h hmem
    simp only [mapValuesE] at h
    cases hf : f kv.1 kv.2 with
    | error e => rw [hf] at h; exact Except.noConfusion h
    | ok b0 =>
      rw [hf] at h
      cases hr : mapValuesE f rest with
      | error e => rw [hr] at h; exact Except.noConfusion h
      | ok bs =>
        rw [hr] at h
        injection h with h
        subst h
        rcases List.mem_cons.mp hmem with heq | hmem'
        · injection heq with h1 h2
          subst h1; subst h2
          exact ⟨kv.2, List.mem_cons_self _ _, hf⟩
        · obtain ⟨a, hmema, hfa⟩ := ih hr hmem'
          exact ⟨a, List.mem_cons_of_mem _ hmema, hfa⟩

theorem mapValuesE_mem_dst {α β : Type} {f : String → α → Except LowerError β} :
    ∀ {l : List (String × α)} {l' : List (String × β)} {k : String} {a : α},
      mapValuesE f l = Except.ok l' → (k, a) ∈ l →
        ∃ b, (k, b) ∈ l' ∧ f k a = Except.ok b := by
  intro l
  induction l with
  | nil => intro l' k a _ hmem; simp at hmem
  | cons kv rest ih =>
    intro l' k a h hmem
    simp only [mapValuesE] at h
    cases hf : f kv.1 kv.2 with
    | error e => rw [hf] at h; exact Except.noConfusion h
    | ok b0 =>
      rw [hf] at h
      cases hr : mapValuesE f rest with
      | error e => rw [hr] at h; exact Except.noConfusion h
      | ok bs =>
        rw [hr] at h
        injection h with h
        subst h
        rcases List.mem_cons.mp hmem with heq | hmem'
        · subst heq
          exact ⟨b0, List.mem_cons_self _ _, hf⟩
        · obtain ⟨b, hmemb, hfb⟩ := ih hr hmem'
          exact ⟨b, List.mem_cons_of_mem _ hmemb, hfb⟩

theorem mapValuesE_error {α β : Type} {f : String → α → Except LowerError β} :
    ∀ {l : List (String × α)} {e : LowerError},
      mapValuesE f l = Except.error e →
        ∃ k a, (k, a) ∈ l ∧ f k a = Except.error e := by
  intro l
  induction l with
  | nil => intro e h; simp only [mapValuesE] at h; exact Except.noConfusion h
  | cons kv rest ih =>
    intro e h
    simp only [mapValuesE] at h
    cases hf : f kv.1 kv.2 with
    | error e0 =>
      rw [hf] at h
      injection h with h
      subst h
      exact ⟨kv.1, kv.2, List.mem_cons_self _ _, hf⟩
    | ok b =>
      rw [hf] at h
      cases hr : mapValuesE f rest with
      | error e0 =>
        rw [hr] at h
        injection h with h
        subst h
        obtain ⟨k, a, hmem, hfa⟩ := ih hr
        exact ⟨k, a, List.mem_cons_of_mem _ hmem, hfa⟩
      | ok bs => rw [hr] at h; exact Except.noConfusion h

theorem mapE_error {α β : Type} {f : α → Except LowerError β} :
    ∀ {l : List α} {e : LowerError},
      mapE f l = Except.error e → ∃ a ∈ l, f a = Except.error e := by
  intro l
  induction l with
  | nil => intro e h; simp only [mapE] at h; exact Except.noConfusion h
  | cons a rest ih =>
    intro e h
    simp only [mapE] at h
    cases hf : f a with
    | error e0 =>
      rw [hf] at h
      injection h with h
      subst h
      exact ⟨a, List.mem_cons_self _ _, hf⟩
    | ok b =>
      rw [hf] at h
      cases hr : mapE f rest with
      | error e0 =>
        rw [hr] at h
        injection h with h
        subst h
        obtain ⟨a', hmem, hfa⟩ := ih hr
        exact ⟨a', List.mem_cons_of_mem _ hmem, hfa⟩
      | ok bs => rw [hr] at h; exact Except.noConfusion h

/-- Inversion of a successful run of `lower` into its six phases. -/
theorem lower_ok_inv {model : Analyze.Model} {ir : Ir}
    (h : lower model = Except.ok ir) :
    ∃ states0 superstates0 states superstates acc1 acc2,
      buildStates model = Except.ok states0 ∧
      buildSuperstates model = Except.ok superstates0 ∧
      linkStates model superstates0 (buildActions model) states0 = Except.ok states ∧
      linkSuperstates model superstates0 (buildActions model) superstates0 =
        Except.ok superstates ∧
      scanStates model.state_machine model.states
        { mode := Mode.blocking, event_type := none, context_type := none } =
          Except.ok acc1 ∧
      scanSuperstates model.state_machine model.superstates acc1 = Except.ok acc2 ∧
      ir = assembleIr model acc2 states superstates := by
  unfold lower at h
  cases hst : buildStates model with
  | error e => simp only [hst] at h; exact Except.noConfusion h
  | ok states0 =>
  simp only [hst] at h
  cases hsst : buildSuperstates model with
  | error e => simp only [hsst] at h; exact Except.noConfusion h
  | ok superstates0 =>
  simp only [hsst] at h
  cases hls : linkStates model superstates0 (buildActions model) states0 with
  | error e => simp only [hls] at h; exact Except.noConfusion h
  | ok states =>
  simp only [hls] at h
  cases hlss : linkSuperstates model superstates0 (buildActions model) superstates0 with
  | error e => simp only [hlss] at h; exact Except.noConfusion h
  | ok superstates =>
  simp only [hlss] at h
  cases hsc1 : scanStates model.state_machine model.states
      { mode := Mode.blocking, event_type := none, context_type := none } with
  | error e => simp only [hsc1] at h; exact Except.noConfusion h
  | ok acc1 =>
  simp only [hsc1] at h
  cases hsc2 : scanSuperstates model.state_machine model.superstates acc1 with
  | error e => simp only [hsc2] at h; exact Except.noConfusion h
  | ok acc2 =>
  simp only [hsc2] at h
  injection h with h
  refine ⟨states0, superstates0, states, superstates, acc1, acc2,
    ?_, ?_, ?_, ?_, ?_, ?_, h.symm⟩ <;> first | rfl | assumption

/-- Inversion of a successful `lower_state`: every field of the built
descriptor, in terms of the successfully converted inherited fields. -/
theorem lower_state_ok_inv {s : Analyze.State} {sm : Analyze.StateMachine}
    {st : State} (h : lower_state s sm = Except.ok st) :
    ∃ inherited,
      mapE fn_arg_to_state_field s.state_inputs = Except.ok inherited ∧
      st.variant = { name := snake_case_to_pascal_case s.handler_name
                     fields := overlayFields inherited s.local_storage } ∧
      st.pat = { enum_ident := sm.state_ident
                 variant_name := snake_case_to_pascal_case s.handler_name
                 fields := (overlayFields inherited s.local_storage).map Field.ident } ∧
      st.handler_call = { storage_ident := sm.shared_storage_ident
                          turbofish := storageTurbofish sm
                          method := s.handler_name
                          args := s.inputs.map fn_arg_to_ident
                          awaited := s.is_async } ∧
      st.entry_action_call = ActionCall.emptyBlock ∧
      st.exit_action_call = ActionCall.emptyBlock ∧
      st.superstate_pat = none ∧
      st.constructor =
        { name := s.handler_name
          params := overlayFields inherited s.local_storage
          variant_name := snake_case_to_pascal_case s.handler_name
          fields := (overlayFields inherited s.local_storage).map Field.ident } := by
  unfold lower_state at h
  cases hm : mapE fn_arg_to_state_field s.state_inputs with
  | error e => rw [hm] at h; exact Except.noConfusion h
  | ok inherited =>
    simp only [hm] at h
    injection h with h
    subst h
    exact ⟨inherited, rfl, rfl, rfl, rfl, rfl, rfl, rfl, rfl⟩

/-- Inversion of a successful `lower_superstate`. -/
theorem lower_superstate_ok_inv {ss : Analyze.Superstate}
    {sm : Analyze.StateMachine} {lw : Superstate}
    (h : lower_superstate ss sm = Except.ok lw) :
    ∃ inherited,
      mapE fn_arg_to_superstate_field ss.state_inputs = Except.ok inherited ∧
      lw.variant = { name := snake_case_to_pascal_case ss.handler_name
                     fields := overlayFields inherited ss.local_storage } ∧
      lw.pat = { enum_ident := sm.superstate_ident
                 variant_name := snake_case_to_pascal_case ss.handler_name
                 fields := (overlayFields inherited ss.local_storage).map Field.ident } ∧
      lw.handler_call = { storage_ident := sm.shared_storage_ident
                          turbofish := storageTurbofish sm
                          method := ss.handler_name
                          args := ss.inputs.map fn_arg_to_ident
                          awaited := ss.is_async } ∧
      lw.entry_action_call = ActionCall.emptyBlock ∧
      lw.exit_action_call = ActionCall.emptyBlock ∧
      lw.superstate_pat = none := by
  unfold lower_superstate at h
  cases hm : mapE fn_arg_to_superstate_field ss.state_inputs with
  | error e => rw [hm] at h; exact Except.noConfusion h
  | ok inherited =>
    simp only [hm] at h
    injection h with h
    subst h
    exact ⟨inherited, rfl, rfl, rfl, rfl, rfl, rfl, rfl⟩

/-- Claim C7: for every state, the generated variant name is the PascalCase
conversion of the handler's snake_case identifier (split on underscores,
uppercase each segment's first character, concatenate), and the generated
match pattern names the state enum and binds exactly the fields of the
variant, in the same order. -/
theorem C7_variant_name_and_pattern (s : Analyze.State)
    (sm : Analyze.StateMachine) (st : State)
    (h : lower_state s sm = Except.ok st) :
    st.variant.name = snake_case_to_pascal_case s.handler_name ∧
    st.pat.variant_name = snake_case_to_pascal_case s.handler_name ∧
    st.pat.enum_ident = sm.state_ident ∧
    st.pat.fields = st.variant.fields.map Field.ident := by
  obtain ⟨inherited, _, hv, hp, _⟩ := lower_state_ok_inv h
  rw [hv, hp]
  exact ⟨rfl, rfl, rfl, rfl⟩

/-- Witness for C7 at the blinky `on` state. -/
theorem C7_variant_name_and_pattern_witness :
    lower_state onState blinkyMachine = Except.ok onLoweredState ∧
    (onLoweredState.variant.name = snake_case_to_pascal_case onState.handler_name ∧
     onLoweredState.pat.variant_name = snake_case_to_pascal_case onState.handler_name ∧
     onLoweredState.pat.enum_ident = blinkyMachine.state_ident ∧
     onLoweredState.pat.fields = onLoweredState.variant.fields.map Field.ident) :=
  ⟨rfl, C7_variant_name_and_pattern onState blinkyMachine onLoweredState rfl⟩

theorem actionFold_no_receiver (l : List FnArg) (acc : List String)
    (h : ∀ x ∈ l, x ≠ FnArg.receiver) :
    l.foldl
        (fun acc input =>
          match input with
          | FnArg.receiver => "shared_storage" :: acc
          | FnArg.typed name _ => acc ++ [name])
        acc
      = acc ++ l.map fn_arg_to_ident := by
  induction l generalizing acc with
  | nil => simp
  | cons a rest ih =>
    cases a with
    | receiver => exact absurd rfl (h _ (List.mem_cons_self _ _))
    | typed name ty =>
      simp only [List.foldl_cons]
      rw [ih (acc ++ [name]) (fun x hx => h x (List.mem_cons_of_mem _ hx))]
      simp [fn_arg_to_ident]

/-- For a well-formed parameter list (the receiver, when present, is the
first parameter, as Rust requires), the action call threads the arguments in
declared order. -/
theorem actionCallInputs_ordered (inputs : List FnArg)
    (h : ∀ x ∈ inputs.drop 1, x ≠ FnArg.receiver) :
    actionCallInputs inputs = inputs.map fn_arg_to_ident := by
  cases inputs with
  | nil => rfl
  | cons a rest =>
    simp only [List.drop_one, List.tail_cons] at h
    cases a with
    | receiver =>
      unfold actionCallInputs
      simp only [List.foldl_cons]
      rw [actionFold_no_receiver rest ["shared_storage"] h]
      rfl
    | typed name ty =>
      unfold actionCallInputs
      simp only [List.foldl_cons, List.nil_append]
      rw [actionFold_no_receiver rest [name] h]
      rfl

theorem fn_arg_to_ident_eq :
    fn_arg_to_ident =
      (fun arg =>
        match arg with
        | FnArg.receiver => "shared_storage"
        | FnArg.typed name _ => name) :=
  funext fun x => by cases x <;> rfl

/-- Claim C9: every built dispatch call (state, superstate, action) passes
its arguments in the handler's declared parameter order, substituting the
shared-storage ident for the receiver and each other parameter's bound name
for itself, and the call is awaited exactly when the handler is
asynchronous.  For actions the source inserts the receiver's substitute at
the front, which agrees with declared order because a Rust receiver is
always the first parameter (hypothesis `ha`). -/
theorem C9_dispatch_call_arguments (s : Analyze.State) (ss : Analyze.Superstate)
    (a : Analyze.Action) (sm : Analyze.StateMachine) (st : State) (lw : Superstate)
    (hs : lower_state s sm = Except.ok st)
    (hss : lower_superstate ss sm = Except.ok lw)
    (ha : ∀ x ∈ a.inputs.drop 1, x ≠ FnArg.receiver) :
    (st.handler_call.args =
        s.inputs.map (fun arg =>
          match arg with
          | FnArg.receiver => "shared_storage"
          | FnArg.typed name _ => name) ∧
      st.handler_call.awaited = s.is_async) ∧
    (lw.handler_call.args =
        ss.inputs.map (fun arg =>
          match arg with
          | FnArg.receiver => "shared_storage"
          | FnArg.typed name _ => name) ∧
      lw.handler_call.awaited = ss.is_async) ∧
    ((lower_action a sm).handler_call.args =
        a.inputs.map (fun arg =>
          match arg with
          | FnArg.receiver => "shared_storage"
          | FnArg.typed name _ => name) ∧
      (lower_action a sm).handler_call.awaited = a.is_async) := by
  obtain ⟨_, _, _, _, hc, _⟩ := lower_state_ok_inv hs
  obtain ⟨_, _, _, _, hc', _⟩ := lower_superstate_ok_inv hss
  refine ⟨⟨?_, ?_⟩, ⟨?_, ?_⟩, ?_, ?_⟩
  · rw [hc, ← fn_arg_to_ident_eq]
  · rw [hc]
  · rw [hc', ← fn_arg_to_ident_eq]
  · rw [hc']
  · show actionCallInputs a.inputs = _
    rw [actionCallInputs_ordered a.inputs ha, ← fn_arg_to_ident_eq]
  · rfl

/-- Witness for C9 at the blinky fixtures. -/
theorem C9_dispatch_call_arguments_witness :
    lower_state onState blinkyMachine = Except.ok onLoweredState ∧
    lower_superstate playingSuperstate blinkyMachine =
      Except.ok playingLoweredSuperstate ∧
    (∀ x ∈ enterOnAction.inputs.drop 1, x ≠ FnArg.receiver) ∧
    ((onLoweredState.handler_call.args =
        onState.inputs.map (fun arg =>
          match arg with
          | FnArg.receiver => "shared_storage"
          | FnArg.typed name _ => name) ∧
      onLoweredState.handler_call.awaited = onState.is_async) ∧
    (playingLoweredSuperstate.handler_call.args =
        playingSuperstate.inputs.map (fun arg =>
          match arg with
          | FnArg.receiver => "shared_storage"
          | FnArg.typed name _ => name) ∧
      playingLoweredSuperstate.handler_call.awaited = playingSuperstate.is_async) ∧
    ((lower_action enterOnAction blinkyMachine).handler_call.args =
        enterOnAction.inputs.map (fun arg =>
          match arg with
          | FnArg.receiver => "shared_storage"
          | FnArg.typed name _ => name) ∧
      (lower_action enterOnAction blinkyMachine).handler_call.awaited =
        enterOnAction.is_async)) :=
  ⟨rfl, rfl, by decide,
    C9_dispatch_call_arguments onState playingSuperstate enterOnAction
      blinkyMachine onLoweredState playingLoweredSuperstate rfl rfl (by decide)⟩

theorem scanStates_ok_mode {sm : Analyze.StateMachine} :
    ∀ {l : List (String × Analyze.State)} {acc acc' : ScanAcc},
      scanStates sm l acc = Except.ok acc' →
        acc'.mode =
          if l.any (fun kv => kv.2.is_async) then Mode.awaitable else acc.mode := by
  intro l
  induction l with
  | nil =>
    intro acc acc' h
    simp only [scanStates] at h
    injection h with h
    subst h
    simp
  | cons kv rest ih =>
    intro acc acc' h
    simp only [scanStates] at h
    cases he : scanEventArg sm.event_ident acc.event_type kv.2.event_arg with
    | error e => rw [he] at h; exact Except.noConfusion h
    | ok ev =>
      simp only [he] at h
      cases hc : scanContextArg sm.context_ident acc.context_type kv.2.context_arg with
      | error e => rw [hc] at h; exact Except.noConfusion h
      | ok ctx =>
        simp only [hc] at h
        rw [ih h]
        cases ha : kv.2.is_async <;> cases hr : rest.any (fun kv => kv.2.is_async) <;>
          simp [ha, hr]

theorem scanSuperstates_ok_mode {sm : Analyze.StateMachine} :
    ∀ {l : List (String × Analyze.Superstate)} {acc acc' : ScanAcc},
      scanSuperstates sm l acc = Except.ok acc' →
        acc'.mode =
          if l.any (fun kv => kv.2.is_async) then Mode.awaitable else acc.mode := by
  intro l
  induction l with
  | nil =>
    intro acc acc' h
    simp only [scanSuperstates] at h
    injection h with h
    subst h
    simp
  | cons kv rest ih =>
    intro acc acc' h
    simp only [scanSuperstates] at h
    cases he : scanEventArg sm.event_ident acc.event_type kv.2.event_arg with
    | error e => rw [he] at h; exact Except.noConfusion h
    | ok ev =>
      simp only [he] at h
      cases hc : scanContextArg sm.context_ident acc.context_type kv.2.context_arg with
      | error e => rw [hc] at h; exact Except.noConfusion h
      | ok ctx =>
        simp only [hc] at h
        rw [ih h]
        cases ha : kv.2.is_async <;> cases hr : rest.any (fun kv => kv.2.is_async) <;>
          simp [ha, hr]

theorem scanActions_mode_eq (l : List (String × Analyze.Action)) (m : Mode) :
    scanActions l m =
      if l.any (fun kv => kv.2.is_async) then Mode.awaitable else m := by
  induction l generalizing m with
  | nil => simp [scanActions]
  | cons kv rest ih =>
    unfold scanActions at ih ⊢
    simp only [List.foldl_cons]
    rw [ih]
    cases ha : kv.2.is_async <;> cases hr : rest.any (fun kv => kv.2.is_async) <;>
      simp [ha, hr]

theorem mode_if_iff (a b c : Bool) :
    ((if c then Mode.awaitable else if b then Mode.awaitable
        else if a then Mode.awaitable else Mode.blocking) = Mode.awaitable ↔
      (a = true ∨ b = true ∨ c = true)) ∧
    ((if c then Mode.awaitable else if b then Mode.awaitable
        else if a then Mode.awaitable else Mode.blocking) = Mode.blocking ↔
      ¬(a = true ∨ b = true ∨ c = true)) := by
  cases a <;> cases b <;> cases c <;> simp

/-- Claim C5: the resolved machine mode is Awaitable (asynchronous) exactly
when at least one state, superstate or action handler is asynchronous, and
Blocking (synchronous) exactly when none is; the `Mode` type has no other
value. -/
theorem C5_machine_mode (model : Analyze.Model) (ir : Ir)
    (h : lower model = Except.ok ir) :
    (ir.state_machine.mode = Mode.awaitable ↔
      ((∃ kv ∈ model.states, kv.2.is_async = true) ∨
       (∃ kv ∈ model.superstates, kv.2.is_async = true) ∨
       (∃ kv ∈ model.actions, kv.2.is_async = true))) ∧
    (ir.state_machine.mode = Mode.blocking ↔
      ¬((∃ kv ∈ model.states, kv.2.is_async = true) ∨
        (∃ kv ∈ model.superstates, kv.2.is_async = true) ∨
        (∃ kv ∈ model.actions, kv.2.is_async = true))) := by
  obtain ⟨states0, superstates0, states, superstates, acc1, acc2,
    _, _, _, _, hsc1, hsc2, hir⟩ := lower_ok_inv h
  have hmode : ir.state_machine.mode = scanActions model.actions acc2.mode := by
    rw [hir]; rfl
  have h1 := scanStates_ok_mode hsc1
  have h2 := scanSuperstates_ok_mode hsc2
  rw [hmode, scanActions_mode_eq, h2, h1]
  have hiff := mode_if_iff (model.states.any (fun kv => kv.2.is_async))
    (model.superstates.any (fun kv => kv.2.is_async))
    (model.actions.any (fun kv => kv.2.is_async))
  simp only [List.any_eq_true] at hiff ⊢
  exact hiff

/-- Witness for C5 at the blinky model (no handler is asynchronous). -/
theorem C5_machine_mode_witness :
    lower blinkyModel = Except.ok blinkyLoweredIr ∧
    ((blinkyLoweredIr.state_machine.mode = Mode.awaitable ↔
      ((∃ kv ∈ blinkyModel.states, kv.2.is_async = true) ∨
       (∃ kv ∈ blinkyModel.superstates, kv.2.is_async = true) ∨
       (∃ kv ∈ blinkyModel.actions, kv.2.is_async = true))) ∧
     (blinkyLoweredIr.state_machine.mode = Mode.blocking ↔
      ¬((∃ kv ∈ blinkyModel.states, kv.2.is_async = true) ∨
        (∃ kv ∈ blinkyModel.superstates, kv.2.is_async = true) ∨
        (∃ kv ∈ blinkyModel.actions, kv.2.is_async = true)))) :=
  ⟨rfl, C5_machine_mode blinkyModel blinkyLoweredIr rfl⟩

/-- Claim C1, evaluated at the failing input: the machine declares candidate
parameter `T`, the only handler whose fields reference `T` is a superstate,
yet the emitted superstate generics are empty, because the source merges the
states' referenced-generics sets for the superstate enum as well. -/
theorem C1_superstate_generics_failing_input :
    (lower genericOnlySuperstateModel).map
        (fun ir => (ir.state_machine.state_generics, ir.state_machine.superstate_generics))
      = Except.ok ({ params := [], where_clause := none },
                   { params := [], where_clause := none }) ∧
    genericOnlySuperstateModel.superstates.map (fun kv => kv.2.candidates_generics)
      = [[GenericArgument.ty (Ty.path "T")]] ∧
    genericOnlySuperstateModel.state_machine.candidates_generics
      = [GenericArgument.ty (Ty.path "T")] ∧
    genericOnlySuperstateModel.state_machine.shared_storage_generics.params
      = [GenericParam.tyParam "T" []] ∧
    mergedSuperstateCandidates genericOnlySuperstateModel = [] :=
  ⟨rfl, rfl, rfl, rfl, rfl⟩

/-- Claim C2 (counterexample to "first encountered"): with two states whose
event parameters reference `EventA` and then `EventB`, in that scan order,
and no explicit event type, the code resolves the event type to the last
candidate `EventB`, not the first candidate `EventA`. -/
theorem C2_first_encountered_counterexample :
    (lower twoEventStatesModel).map (fun ir => ir.state_machine.event_type)
      = Except.ok (Ty.path "EventB") ∧
    (eventCandidates twoEventStatesModel).head? = some (Ty.path "EventA") ∧
    twoEventStatesModel.state_machine.event_type = none ∧
    Ty.path "EventB" ≠ Ty.path "EventA" :=
  ⟨rfl, rfl, rfl, by decide⟩

theorem getLast?_cons_ne_none {α : Type} (u : α) (l : List α) :
    (u :: l).getLast? ≠ none := by
  induction l generalizing u with
  | nil => simp
  | cons v rest ih => rw [List.getLast?_cons_cons]; exact ih v

theorem lastOr_cons (t : Ty) (cs : List Ty) (cur : Option Ty) :
    lastOr (t :: cs) cur = lastOr cs (some t) := by
  unfold lastOr
  cases cs with
  | nil => rfl
  | cons u rest =>
    rw [List.getLast?_cons_cons]
    cases hg : (u :: rest).getLast? with
    | none => exact absurd hg (getLast?_cons_ne_none u rest)
    | some w => rfl

theorem scanEventArg_ok {ident : String} {cur : Option Ty} {arg : Option PatType}
    {r : Option Ty} (h : scanEventArg ident cur arg = Except.ok r) :
    r = match eventArgCandidate ident arg with
        | some t => some t
        | none => cur := by
  cases arg with
  | none =>
    simp only [scanEventArg] at h
    injection h with h
    subst h
    rfl
  | some pt =>
    simp only [scanEventArg] at h
    by_cases hn : pt.name = ident
    · rw [if_pos hn] at h
      cases hty : pt.ty with
      | ref lt m elem =>
        rw [hty] at h
        injection h with h
        subst h
        simp [eventArgCandidate, if_pos hn, hty]
      | unit => rw [hty] at h; exact Except.noConfusion h
      | path n => rw [hty] at h; exact Except.noConfusion h
    · rw [if_neg hn] at h
      injection h with h
      subst h
      simp [eventArgCandidate, if_neg hn]

theorem scanContextArg_ok {ident : String} {cur : Option Ty} {arg : Option PatType}
    {r : Option Ty} (h : scanContextArg ident cur arg = Except.ok r) :
    r = match eventArgCandidate ident arg with
        | some t => some t
        | none => cur := by
  cases arg with
  | none =>
    simp only [scanContextArg] at h
    injection h with h
    subst h
    rfl
  | some pt =>
    simp only [scanContextArg] at h
    by_cases hn : pt.name = ident
    · rw [if_pos hn] at h
      cases hty : pt.ty with
      | ref lt m elem =>
        rw [hty] at h
        injection h with h
        subst h
        simp [eventArgCandidate, if_pos hn, hty]
      | unit => rw [hty] at h; exact Except.noConfusion h
      | path n => rw [hty] at h; exact Except.noConfusion h
    · rw [if_neg hn] at h
      injection h with h
      subst h
      simp [eventArgCandidate, if_neg hn]

theorem scanStates_ok_event {sm : Analyze.StateMachine} :
    ∀ {l : List (String × Analyze.State)} {acc acc' : ScanAcc},
      scanStates sm l acc = Except.ok acc' →
        acc'.event_type =
          lastOr (l.filterMap (fun kv => eventArgCandidate sm.event_ident kv.2.event_arg))
            acc.event_type := by
  intro l
  induction l with
  | nil =>
    intro acc acc' h
    simp only [scanStates] at h
    injection h with h
    subst h
    rfl
  | cons kv rest ih =>
    intro acc acc' h
    simp only [scanStates] at h
    cases he : scanEventArg sm.event_ident acc.event_type kv.2.event_arg with
    | error e => rw [he] at h; exact Except.noConfusion h
    | ok ev =>
      simp only [he] at h
      cases hc : scanContextArg sm.context_ident acc.context_type kv.2.context_arg with
      | error e => rw [hc] at h; exact Except.noConfusion h
      | ok ctx =>
        simp only [hc] at h
        have hev := scanEventArg_ok he
        rw [ih h]
        simp only [List.filterMap_cons]
        cases hcand : eventArgCandidate sm.event_ident kv.2.event_arg with
        | none => rw [hcand] at hev; subst hev; rfl
        | some t =>
          rw [hcand] at hev
          subst hev
          rw [lastOr_cons]

theorem scanStates_ok_context {sm : Analyze.StateMachine} :
    ∀ {l : List (String × Analyze.State)} {acc acc' : ScanAcc},
      scanStates sm l acc = Except.ok acc' →
        acc'.context_type =
          lastOr (l.filterMap (fun kv => eventArgCandidate sm.context_ident kv.2.context_arg))
            acc.context_type := by
  intro l
  induction l with
  | nil =>
    intro acc acc' h
    simp only [scanStates] at h
    injection h with h
    subst h
    rfl
  | cons kv rest ih =>
    intro acc acc' h
    simp only [scanStates] at h
    cases he : scanEventArg sm.event_ident acc.event_type kv.2.event_arg with
    | error e => rw [he] at h; exact Except.noConfusion h
    | ok ev =>
      simp only [he] at h
      cases hc : scanContextArg sm.context_ident acc.context_type kv.2.context_arg with
      | error e => rw [hc] at h; exact Except.noConfusion h
      | ok ctx =>
        simp only [hc] at h
        have hctx := scanContextArg_ok hc
        rw [ih h]
        simp only [List.filterMap_cons]
        cases hcand : eventArgCandidate sm.context_ident kv.2.context_arg with
        | none => rw [hcand] at hctx; subst hctx; rfl
        | some t =>
          rw [hcand] at hctx
          subst hctx
          rw [lastOr_cons]

theorem scanSuperstates_ok_event {sm : Analyze.StateMachine} :
    ∀ {l : List (String × Analyze.Superstate)} {acc acc' : ScanAcc},
      scanSuperstates sm l acc = Except.ok acc' →
        acc'.event_type =
          lastOr (l.filterMap (fun kv => eventArgCandidate sm.event_ident kv.2.event_arg))
            acc.event_type := by
  intro l
  induction l with
  | nil =>
    intro acc acc' h
    simp only [scanSuperstates] at h
    injection h with h
    subst h
    rfl
  | cons kv rest ih =>
    intro acc acc' h
    simp only [scanSuperstates] at h
    cases he : scanEventArg sm.event_ident acc.event_type kv.2.event_arg with
    | error e => rw [he] at h; exact Except.noConfusion h
    | ok ev =>
      simp only [he] at h
      cases hc : scanContextArg sm.context_ident acc.context_type kv.2.context_arg with
      | error e => rw [hc] at h; exact Except.noConfusion h
      | ok ctx =>
        simp only [hc] at h
        have hev := scanEventArg_ok he
        rw [ih h]
        simp only [List.filterMap_cons]
        cases hcand : eventArgCandidate sm.event_ident kv.2.event_arg with
        | none => rw [hcand] at hev; subst hev; rfl
        | some t =>
          rw [hcand] at hev
          subst hev
          rw [lastOr_cons]

theorem scanSuperstates_ok_context {sm : Analyze.StateMachine} :
    ∀ {l : List (String × Analyze.Superstate)} {acc acc' : ScanAcc},
      scanSuperstates sm l acc = Except.ok acc' →
        acc'.context_type =
          lastOr (l.filterMap (fun kv => eventArgCandidate sm.context_ident kv.2.context_arg))
            acc.context_type := by
  intro l
  induction l with
  | nil =>
    intro acc acc' h
    simp only [scanSuperstates] at h
    injection h with h
    subst h
    rfl
  | cons kv rest ih =>
    intro acc acc' h
    simp only [scanSuperstates] at h
    cases he : scanEventArg sm.event_ident acc.event_type kv.2.event_arg with
    | error e => rw [he] at h; exact Except.noConfusion h
    | ok ev =>
      simp only [he] at h
      cases hc : scanContextArg sm.context_ident acc.context_type kv.2.context_arg with
      | error e => rw [hc] at h; exact Except.noConfusion h
      | ok ctx =>
        simp only [hc] at h
        have hctx := scanContextArg_ok hc
        rw [ih h]
        simp only [List.filterMap_cons]
        cases hcand : eventArgCandidate sm.context_ident kv.2.context_arg with
        | none => rw [hcand] at hctx; subst hctx; rfl
        | some t =>
          rw [hcand] at hctx
          subst hctx
          rw [lastOr_cons]

theorem lastOr_append (a b : List Ty) (cur : Option Ty) :
    lastOr (a ++ b) cur = lastOr b (lastOr a cur) := by
  cases b with
  | nil => simp [lastOr]
  | cons t rest =>
    unfold lastOr
    rw [List.getLast?_append_of_ne_nil a (by simp)]
    cases hg : (t :: rest).getLast? with
    | none => exact absurd hg (getLast?_cons_ne_none t rest)
    | some w => rfl

theorem lastOr_none (cs : List Ty) : lastOr cs none = cs.getLast? := by
  unfold lastOr
  cases cs.getLast? <;> rfl

/-- Claim C2 as amended: the resolved event (resp. context) type is never
undetermined — an explicit machine-level declaration takes precedence; else
the type is the referenced type of the LAST encountered handler parameter
bound to the configured ident with a reference type (states scanned before
superstates, last writer wins); else it defaults to the unit type. -/
theorem C2_event_context_resolution (model : Analyze.Model) (ir : Ir)
    (h : lower model = Except.ok ir) :
    ir.state_machine.event_type =
      model.state_machine.event_type.getD
        ((eventCandidates model).getLast?.getD Ty.unit) ∧
    ir.state_machine.context_type =
      model.state_machine.context_type.getD
        ((contextCandidates model).getLast?.getD Ty.unit) := by
  obtain ⟨states0, superstates0, states, superstates, acc1, acc2,
    _, _, _, _, hsc1, hsc2, hir⟩ := lower_ok_inv h
  have hev1 := scanStates_ok_event hsc1
  have hctx1 := scanStates_ok_context hsc1
  have hinit_ev :
      ({ mode := Mode.blocking, event_type := none, context_type := none } :
        ScanAcc).event_type = none := rfl
  have hinit_ctx :
      ({ mode := Mode.blocking, event_type := none, context_type := none } :
        ScanAcc).context_type = none := rfl
  rw [hinit_ev] at hev1
  rw [hinit_ctx] at hctx1
  have hev : acc2.event_type = (eventCandidates model).getLast? := by
    rw [scanSuperstates_ok_event hsc2, hev1, ← lastOr_append, lastOr_none]
    rfl
  have hctx : acc2.context_type = (contextCandidates model).getLast? := by
    rw [scanSuperstates_ok_context hsc2, hctx1, ← lastOr_append, lastOr_none]
    rfl
  constructor
  · show ir.state_machine.event_type = _
    rw [hir]
    show resolvedEventType model acc2 = _
    unfold resolvedEventType
    rw [hev]
  · rw [hir]
    show resolvedContextType model acc2 = _
    unfold resolvedContextType
    rw [hctx]

/-- Witness for the amended C2 at the blinky model (no matching parameter
anywhere, no explicit types, so both types default to unit). -/
theorem C2_event_context_resolution_witness :
    lower blinkyModel = Except.ok blinkyLoweredIr ∧
    (blinkyLoweredIr.state_machine.event_type =
      blinkyModel.state_machine.event_type.getD
        ((eventCandidates blinkyModel).getLast?.getD Ty.unit) ∧
     blinkyLoweredIr.state_machine.context_type =
      blinkyModel.state_machine.context_type.getD
        ((contextCandidates blinkyModel).getLast?.getD Ty.unit)) :=
  ⟨rfl, C2_event_context_resolution blinkyModel blinkyLoweredIr rfl⟩

theorem addPredicate_params
    (m : List (GenericArgument × GenericParam × List WherePredicate))
    (arg : GenericArgument) (pred : WherePredicate) :
    (addPredicate m arg pred).map (fun e => e.2.1) = m.map (fun e => e.2.1) := by
  induction m with
  | nil => rfl
  | cons entry rest ih =>
    unfold addPredicate
    by_cases he : entry.1 = arg
    · rw [if_pos he]
      rfl
    · rw [if_neg he]
      simp [ih]

theorem foldl_addPredicate_params (preds : List WherePredicate) :
    ∀ (m : List (GenericArgument × GenericParam × List WherePredicate)),
      ((preds.foldl
          (fun m predicate =>
            match predicate.argument with
            | none => m
            | some arg => addPredicate m arg predicate)
          m).map (fun e => e.2.1))
        = m.map (fun e => e.2.1) := by
  induction preds with
  | nil => intro m; rfl
  | cons p rest ih =>
    intro m
    simp only [List.foldl_cons]
    rw [ih]
    cases hp : p.argument with
    | none => rfl
    | some arg => rw [addPredicate_params]

theorem map_generics_params (g : Generics) :
    (map_generics g).map (fun e => e.2.1) = g.params := by
  unfold map_generics
  rw [foldl_addPredicate_params, List.map_map]
  have hid : ((fun (e : GenericArgument × GenericParam × List WherePredicate) => e.2.1) ∘
      fun param => (GenericParam.toArgument param, param, ([] : List WherePredicate))) = id := by
    funext p
    rfl
  rw [hid, List.map_id]

theorem buildFilteredGenerics_foldl_params
    (gmap : List (GenericArgument × GenericParam × List WherePredicate))
    (allowed : GenericArgument → Bool) :
    ∀ (g0 : Generics),
      (gmap.foldl
          (fun g entry =>
            if allowed entry.1 then
              { params := g.params ++ [entry.2.1]
                where_clause :=
                  match g.where_clause with
                  | some ps => some (ps ++ entry.2.2)
                  | none => some entry.2.2 }
            else g)
          g0).params
        = g0.params ++ (gmap.filter (fun e => allowed e.1)).map (fun e => e.2.1) := by
  induction gmap with
  | nil => intro g0; simp
  | cons entry rest ih =>
    intro g0
    simp only [List.foldl_cons]
    by_cases ha : allowed entry.1
    · rw [if_pos ha, ih]
      simp [List.filter_cons, ha]
    · rw [if_neg ha, ih]
      simp [List.filter_cons, ha]

theorem buildFilteredGenerics_params
    (gmap : List (GenericArgument × GenericParam × List WherePredicate))
    (allowed : GenericArgument → Bool) :
    (buildFilteredGenerics gmap allowed).params
      = (gmap.filter (fun e => allowed e.1)).map (fun e => e.2.1) := by
  unfold buildFilteredGenerics
  rw [buildFilteredGenerics_foldl_params]
  rfl

theorem buildFilteredGenerics_params_subset
    {gmap : List (GenericArgument × GenericParam × List WherePredicate)}
    {allowed : GenericArgument → Bool} {p : GenericParam}
    (h : p ∈ (buildFilteredGenerics gmap allowed).params) :
    p ∈ gmap.map (fun e => e.2.1) := by
  rw [buildFilteredGenerics_params] at h
  obtain ⟨e, he, hpe⟩ := List.mem_map.mp h
  exact List.mem_map.mpr ⟨e, List.mem_of_mem_filter he, hpe⟩

theorem stateGenericsOf_params_subset (model : Analyze.Model) {p : GenericParam}
    (h : p ∈ (stateGenericsOf model).params) :
    p ∈ model.state_machine.shared_storage_generics.params := by
  unfold stateGenericsOf at h
  have := buildFilteredGenerics_params_subset h
  rwa [map_generics_params] at this

theorem superstateFilteredGenerics_params_subset (model : Analyze.Model)
    {p : GenericParam} (h : p ∈ (superstateFilteredGenerics model).params) :
    p ∈ model.state_machine.shared_storage_generics.params := by
  unfold superstateFilteredGenerics at h
  have := buildFilteredGenerics_params_subset h
  rwa [map_generics_params] at this

theorem not_isEmpty_iff {α : Type} (l : List α) : ((!l.isEmpty) = true) ↔ l ≠ [] := by
  cases l <;> simp

/-- Claim C8: the synthetic superstate scope-lifetime parameter is appended
to the superstate type's filtered generic list exactly when at least one
superstate has a non-empty state-input list; it is never added
unconditionally and never added to the state type's generics (the freshness
hypothesis `hfresh` says the user's shared generics do not themselves
declare the reserved scope lifetime). -/
theorem C8_superstate_scope_lifetime (model : Analyze.Model) (ir : Ir)
    (h : lower model = Except.ok ir)
    (hfresh : ∀ bounds, GenericParam.lifetimeParam SUPERSTATE_LIFETIME bounds ∉
        model.state_machine.shared_storage_generics.params) :
    ((∃ kv ∈ model.superstates, kv.2.state_inputs ≠ []) →
      ir.state_machine.superstate_generics.params =
        (superstateFilteredGenerics model).params
          ++ [GenericParam.lifetimeParam SUPERSTATE_LIFETIME []]) ∧
    ((¬ ∃ kv ∈ model.superstates, kv.2.state_inputs ≠ []) →
      ir.state_machine.superstate_generics.params =
        (superstateFilteredGenerics model).params ∧
      ∀ bounds, GenericParam.lifetimeParam SUPERSTATE_LIFETIME bounds ∉
        ir.state_machine.superstate_generics.params) ∧
    (∀ bounds, GenericParam.lifetimeParam SUPERSTATE_LIFETIME bounds ∉
      ir.state_machine.state_generics.params) := by
  obtain ⟨states0, superstates0, states, superstates, acc1, acc2,
    _, _, _, _, _, _, hir⟩ := lower_ok_inv h
  have hsup : ir.state_machine.superstate_generics = superstateGenericsOf model := by
    rw [hir]; rfl
  have hst : ir.state_machine.state_generics = stateGenericsOf model := by
    rw [hir]; rfl
  refine ⟨?_, ?_, ?_⟩
  · intro hex
    have hany : model.superstates.any (fun kv => !kv.2.state_inputs.isEmpty) = true := by
      simp only [List.any_eq_true]
      obtain ⟨kv, hm, hne⟩ := hex
      exact ⟨kv, hm, (not_isEmpty_iff _).mpr hne⟩
    have hlt : superstateLifetime model = some SUPERSTATE_LIFETIME := by
      unfold superstateLifetime
      rw [if_pos hany]
    rw [hsup]
    unfold superstateGenericsOf
    rw [hlt]
  · intro hnex
    have hany : model.superstates.any (fun kv => !kv.2.state_inputs.isEmpty) = false := by
      rw [List.any_eq_false]
      intro kv hm hne
      exact hnex ⟨kv, hm, (not_isEmpty_iff _).mp hne⟩
    have hlt : superstateLifetime model = none := by
      unfold superstateLifetime
      rw [if_neg (by rw [hany]; exact Bool.false_ne_true)]
    have hbase : ir.state_machine.superstate_generics = superstateFilteredGenerics model := by
      rw [hsup]
      unfold superstateGenericsOf
      rw [hlt]
    refine ⟨by rw [hbase], fun bounds hmem => ?_⟩
    rw [hbase] at hmem
    exact hfresh bounds (superstateFilteredGenerics_params_subset model hmem)
  · intro bounds hmem
    rw [hst] at hmem
    exact hfresh bounds (stateGenericsOf_params_subset model hmem)

/-- Witness for C8 at the blinky model (its one superstate carries borrowed
fields, so the scope lifetime is appended; the shared storage has no
generics). -/
theorem C8_superstate_scope_lifetime_witness :
    lower blinkyModel = Except.ok blinkyLoweredIr ∧
    (∀ bounds, GenericParam.lifetimeParam SUPERSTATE_LIFETIME bounds ∉
        blinkyModel.state_machine.shared_storage_generics.params) ∧
    (((∃ kv ∈ blinkyModel.superstates, kv.2.state_inputs ≠ []) →
      blinkyLoweredIr.state_machine.superstate_generics.params =
        (superstateFilteredGenerics blinkyModel).params
          ++ [GenericParam.lifetimeParam SUPERSTATE_LIFETIME []]) ∧
    ((¬ ∃ kv ∈ blinkyModel.superstates, kv.2.state_inputs ≠ []) →
      blinkyLoweredIr.state_machine.superstate_generics.params =
        (superstateFilteredGenerics blinkyModel).params ∧
      ∀ bounds, GenericParam.lifetimeParam SUPERSTATE_LIFETIME bounds ∉
        blinkyLoweredIr.state_machine.superstate_generics.params) ∧
    (∀ bounds, GenericParam.lifetimeParam SUPERSTATE_LIFETIME bounds ∉
      blinkyLoweredIr.state_machine.state_generics.params)) :=
  ⟨rfl, fun _ h => List.not_mem_nil _ h,
    C8_superstate_scope_lifetime blinkyModel blinkyLoweredIr rfl
      (fun _ h => List.not_mem_nil _ h)⟩

theorem replaceOrAppend_map_ident_of_mem {acc : List Field} {f : Field}
    (h : f.ident ∈ acc.map Field.ident) :
    (replaceOrAppend acc f).map Field.ident = acc.map Field.ident := by
  induction acc with
  | nil => simp at h
  | cons g rest ih =>
    unfold replaceOrAppend
    by_cases hg : g.ident = f.ident
    · rw [if_pos hg]
      simp [hg]
    · rw [if_neg hg]
      simp only [List.map_cons] at h ⊢
      rcases List.mem_cons.mp h with heq | hmem
      · exact absurd heq.symm hg
      · rw [ih hmem]

theorem replaceOrAppend_of_not_mem {acc : List Field} {f : Field}
    (h : f.ident ∉ acc.map Field.ident) :
    replaceOrAppend acc f = acc ++ [f] := by
  induction acc with
  | nil => rfl
  | cons g rest ih =>
    simp only [List.map_cons, List.mem_cons] at h
    push_neg at h
    unfold replaceOrAppend
    rw [if_neg (Ne.symm h.1), ih h.2]
    rfl

theorem mem_replaceOrAppend_self (acc : List Field) (f : Field) :
    f ∈ replaceOrAppend acc f := by
  induction acc with
  | nil => exact List.mem_singleton_self f
  | cons g rest ih =>
    unfold replaceOrAppend
    by_cases hg : g.ident = f.ident
    · rw [if_pos hg]
      exact List.mem_cons_self _ _
    · rw [if_neg hg]
      exact List.mem_cons_of_mem _ ih

theorem mem_replaceOrAppend_of_ne {acc : List Field} {g : Field} (f : Field)
    (hmem : g ∈ acc) (hne : f.ident ≠ g.ident) : g ∈ replaceOrAppend acc f := by
  induction acc with
  | nil => simp at hmem
  | cons a rest ih =>
    unfold replaceOrAppend
    by_cases ha : a.ident = f.ident
    · rw [if_pos ha]
      rcases List.mem_cons.mp hmem with heq | hmem'
      · subst heq
        exact absurd ha.symm hne
      · exact List.mem_cons_of_mem _ hmem'
    · rw [if_neg ha]
      rcases List.mem_cons.mp hmem with heq | hmem'
      · subst heq
        exact List.mem_cons_self _ _
      · exact List.mem_cons_of_mem _ (ih hmem')

theorem mem_overlayFields_of_untouched {g : Field} :
    ∀ (locals : List Field) (acc : List Field), g ∈ acc →
      (∀ f ∈ locals, f.ident ≠ g.ident) → g ∈ overlayFields acc locals := by
  intro locals
  induction locals with
  | nil => intro acc hmem _; exact hmem
  | cons f rest ih =>
    intro acc hmem hne
    show g ∈ overlayFields (replaceOrAppend acc f) rest
    exact ih _ (mem_replaceOrAppend_of_ne f hmem (hne f (List.mem_cons_self _ _)))
      (fun f' hf' => hne f' (List.mem_cons_of_mem _ hf'))

theorem mem_overlayFields_of_local {f : Field} :
    ∀ (locals : List Field) (acc : List Field), f ∈ locals →
      (locals.map Field.ident).Nodup → f ∈ overlayFields acc locals := by
  intro locals
  induction locals with
  | nil => intro acc hmem _; simp at hmem
  | cons g rest ih =>
    intro acc hmem hl
    simp only [List.map_cons, List.nodup_cons] at hl
    rcases List.mem_cons.mp hmem with heq | hmem'
    · subst heq
      show f ∈ overlayFields (replaceOrAppend acc f) rest
      refine mem_overlayFields_of_untouched rest _ (mem_replaceOrAppend_self acc f) ?_
      intro f' hf' heq'
      exact hl.1 (heq' ▸ List.mem_map.mpr ⟨f', hf', rfl⟩)
    · exact ih _ hmem' hl.2

theorem overlayFields_map_ident :
    ∀ (locals : List Field), (locals.map Field.ident).Nodup →
      ∀ (base : List Field),
        (overlayFields base locals).map Field.ident =
          base.map Field.ident ++
            (locals.filter
              (fun f => decide (f.ident ∉ base.map Field.ident))).map Field.ident := by
  intro locals
  induction locals with
  | nil => intro _ base; simp [overlayFields]
  | cons f rest ih =>
    intro hl base
    simp only [List.map_cons, List.nodup_cons] at hl
    show (overlayFields (replaceOrAppend base f) rest).map Field.ident = _
    by_cases hmem : f.ident ∈ base.map Field.ident
    · rw [ih hl.2 (replaceOrAppend base f),
        replaceOrAppend_map_ident_of_mem hmem]
      rw [List.filter_cons_of_neg (by simpa using hmem)]
    · rw [ih hl.2 (replaceOrAppend base f),
        replaceOrAppend_of_not_mem hmem]
      rw [List.filter_cons_of_pos (by simpa using hmem)]
      have hco : rest.filter
            (fun g => decide (g.ident ∉ (base ++ [f]).map Field.ident))
          = rest.filter (fun g => decide (g.ident ∉ base.map Field.ident)) := by
        apply List.filter_congr
        intro g hg
        rw [decide_eq_decide]
        have hgne : g.ident ≠ f.ident := by
          intro heq
          exact hl.1 (heq ▸ List.mem_map.mpr ⟨g, hg, rfl⟩)
        simp [hgne]
      rw [hco]
      simp

theorem overlayFields_nodup_ident {base locals : List Field}
    (hb : (base.map Field.ident).Nodup) (hl : (locals.map Field.ident).Nodup) :
    ((overlayFields base locals).map Field.ident).Nodup := by
  rw [overlayFields_map_ident locals hl base]
  rw [List.nodup_append]
  refine ⟨hb, ?_, ?_⟩
  · exact List.Nodup.sublist (List.Sublist.map _ (List.filter_sublist locals)) hl
  · intro a ha hafil
    obtain ⟨g, hgmem, hga⟩ := List.mem_map.mp hafil
    have := (List.mem_filter.mp hgmem).2
    rw [decide_eq_true_iff] at this
    exact this (hga ▸ ha)

theorem mapE_state_field_idents :
    ∀ {pts : List PatType} {fs : List Field},
      mapE fn_arg_to_state_field pts = Except.ok fs →
        fs.map Field.ident = pts.map PatType.name := by
  intro pts
  induction pts with
  | nil =>
    intro fs h
    simp only [mapE] at h
    injection h with h
    subst h
    rfl
  | cons pt rest ih =>
    intro fs h
    simp only [mapE] at h
    cases hf : fn_arg_to_state_field pt with
    | error e => rw [hf] at h; exact Except.noConfusion h
    | ok fld =>
      simp only [hf] at h
      cases hr : mapE fn_arg_to_state_field rest with
      | error e => rw [hr] at h; exact Except.noConfusion h
      | ok flds =>
        simp only [hr] at h
        injection h with h
        subst h
        have hid : fld.ident = pt.name := by
          unfold fn_arg_to_state_field at hf
          cases hty : pt.ty with
          | ref lt m elem => rw [hty] at hf; injection hf with hf; subst hf; rfl
          | unit => rw [hty] at hf; exact Except.noConfusion hf
          | path n => rw [hty] at hf; exact Except.noConfusion hf
        simp [hid, ih hr]

theorem mapE_superstate_field_idents :
    ∀ {pts : List PatType} {fs : List Field},
      mapE fn_arg_to_superstate_field pts = Except.ok fs →
        fs.map Field.ident = pts.map PatType.name := by
  intro pts
  induction pts with
  | nil =>
    intro fs h
    simp only [mapE] at h
    injection h with h
    subst h
    rfl
  | cons pt rest ih =>
    intro fs h
    simp only [mapE] at h
    cases hf : fn_arg_to_superstate_field pt with
    | error e => rw [hf] at h; exact Except.noConfusion h
    | ok fld =>
      simp only [hf] at h
      cases hr : mapE fn_arg_to_superstate_field rest with
      | error e => rw [hr] at h; exact Except.noConfusion h
      | ok flds =>
        simp only [hr] at h
        injection h with h
        subst h
        have hid : fld.ident = pt.name := by
          unfold fn_arg_to_superstate_field at hf
          cases hty : pt.ty with
          | ref lt m elem => rw [hty] at hf; injection hf with hf; subst hf; rfl
          | unit => rw [hty] at hf; exact Except.noConfusion hf
          | path n => rw [hty] at hf; exact Except.noConfusion hf
        simp [hid, ih hr]

/-- Claim C6: for every state and superstate descriptor built (with the
analyzer-guaranteed well-formedness that handler parameter names and
local-storage field names are duplicate-free), the final field list contains
each field name exactly once; a local-storage field keeps its own
(local-storage) type and a same-named inherited state-input field is
replaced in place, while fresh-named local-storage fields are appended at
the end, so the ident layout is the inherited names followed by the fresh
local names. -/
theorem C6_field_list_dedup (s : Analyze.State) (ss : Analyze.Superstate)
    (sm : Analyze.StateMachine) (st : State) (lw : Superstate)
    (hs : lower_state s sm = Except.ok st)
    (hss : lower_superstate ss sm = Except.ok lw)
    (hsN : (s.state_inputs.map PatType.name).Nodup)
    (hsL : (s.local_storage.map Field.ident).Nodup)
    (hssN : (ss.state_inputs.map PatType.name).Nodup)
    (hssL : (ss.local_storage.map Field.ident).Nodup) :
    ((st.variant.fields.map Field.ident).Nodup ∧
     (∀ f ∈ s.local_storage, f ∈ st.variant.fields) ∧
     st.variant.fields.map Field.ident =
       s.state_inputs.map PatType.name ++
         (s.local_storage.filter
           (fun f =>
             decide (f.ident ∉ s.state_inputs.map PatType.name))).map Field.ident) ∧
    ((lw.variant.fields.map Field.ident).Nodup ∧
     (∀ f ∈ ss.local_storage, f ∈ lw.variant.fields) ∧
     lw.variant.fields.map Field.ident =
       ss.state_inputs.map PatType.name ++
         (ss.local_storage.filter
           (fun f =>
             decide (f.ident ∉ ss.state_inputs.map PatType.name))).map Field.ident) := by
  obtain ⟨inh, hm, hv, _⟩ := lower_state_ok_inv hs
  obtain ⟨inh', hm', hv', _⟩ := lower_superstate_ok_inv hss
  have hbase : inh.map Field.ident = s.state_inputs.map PatType.name :=
    mapE_state_field_idents hm
  have hbase' : inh'.map Field.ident = ss.state_inputs.map PatType.name :=
    mapE_superstate_field_idents hm'
  have hfields : st.variant.fields = overlayFields inh s.local_storage := by
    rw [hv]
  have hfields' : lw.variant.fields = overlayFields inh' ss.local_storage := by
    rw [hv']
  constructor
  · refine ⟨?_, ?_, ?_⟩
    · rw [hfields]
      exact overlayFields_nodup_ident (by rw [hbase]; exact hsN) hsL
    · intro f hf
      rw [hfields]
      exact mem_overlayFields_of_local s.local_storage inh hf hsL
    · rw [hfields, overlayFields_map_ident s.local_storage hsL inh, hbase]
  · refine ⟨?_, ?_, ?_⟩
    · rw [hfields']
      exact overlayFields_nodup_ident (by rw [hbase']; exact hssN) hssL
    · intro f hf
      rw [hfields']
      exact mem_overlayFields_of_local ss.local_storage inh' hf hssL
    · rw [hfields', overlayFields_map_ident ss.local_storage hssL inh', hbase']

/-- Witness for C6 at the blinky fixtures. -/
theorem C6_field_list_dedup_witness :
    (lower_state onState blinkyMachine = Except.ok onLoweredState ∧
     lower_superstate playingSuperstate blinkyMachine =
       Except.ok playingLoweredSuperstate ∧
     (onState.state_inputs.map PatType.name).Nodup ∧
     (onState.local_storage.map Field.ident).Nodup ∧
     (playingSuperstate.state_inputs.map PatType.name).Nodup ∧
     (playingSuperstate.local_storage.map Field.ident).Nodup) ∧
    (((onLoweredState.variant.fields.map Field.ident).Nodup ∧
      (∀ f ∈ onState.local_storage, f ∈ onLoweredState.variant.fields) ∧
      onLoweredState.variant.fields.map Field.ident =
        onState.state_inputs.map PatType.name ++
          (onState.local_storage.filter
            (fun f =>
              decide (f.ident ∉ onState.state_inputs.map PatType.name))).map
            Field.ident) ∧
     ((playingLoweredSuperstate.variant.fields.map Field.ident).Nodup ∧
      (∀ f ∈ playingSuperstate.local_storage,
          f ∈ playingLoweredSuperstate.variant.fields) ∧
      playingLoweredSuperstate.variant.fields.map Field.ident =
        playingSuperstate.state_inputs.map PatType.name ++
          (playingSuperstate.local_storage.filter
            (fun f =>
              decide
                (f.ident ∉ playingSuperstate.state_inputs.map PatType.name))).map
            Field.ident)) :=
  ⟨⟨rfl, rfl, by decide, by decide, by decide, by decide⟩,
    C6_field_list_dedup onState playingSuperstate blinkyMachine onLoweredState
      playingLoweredSuperstate rfl rfl (by decide) (by decide) (by decide)
      (by decide)⟩

theorem linkStateExit_ok {model : Analyze.Model} {actions : List (String × Action)}
    {key : String} {st st' : State}
    (h : linkStateExit model actions key st = Except.ok st') :
    st'.variant = st.variant ∧ st'.pat = st.pat ∧
    st'.handler_call = st.handler_call ∧ st'.constructor = st.constructor ∧
    st'.superstate_pat = st.superstate_pat ∧
    st'.entry_action_call = st.entry_action_call ∧
    ((Option.bind (lookupKey key model.states) (fun s => s.exit_action) = none ∧
        st'.exit_action_call = st.exit_action_call) ∨
     (∃ xa a,
        Option.bind (lookupKey key model.states) (fun s => s.exit_action) = some xa ∧
        lookupKey xa actions = some a ∧
        st'.exit_action_call = ActionCall.call a.handler_call)) := by
  unfold linkStateExit at h
  cases hx : Option.bind (lookupKey key model.states) (fun s => s.exit_action) with
  | none =>
    simp only [hx] at h
    injection h with h
    subst h
    exact ⟨rfl, rfl, rfl, rfl, rfl, rfl, Or.inl ⟨rfl, rfl⟩⟩
  | some xa =>
    simp only [hx] at h
    cases ha : lookupKey xa actions with
    | none => rw [ha] at h; exact Except.noConfusion h
    | some a =>
      simp only [ha] at h
      injection h with h
      subst h
      exact ⟨rfl, rfl, rfl, rfl, rfl, rfl, Or.inr ⟨xa, a, rfl, ha, rfl⟩⟩

theorem linkStateEntry_ok {model : Analyze.Model} {actions : List (String × Action)}
    {key : String} {st st' : State}
    (h : linkStateEntry model actions key st = Except.ok st') :
    st'.variant = st.variant ∧ st'.pat = st.pat ∧
    st'.handler_call = st.handler_call ∧ st'.constructor = st.constructor ∧
    st'.superstate_pat = st.superstate_pat ∧
    ((Option.bind (lookupKey key model.states) (fun s => s.entry_action) = none ∧
        st'.entry_action_call = st.entry_action_call) ∨
     (∃ ea a,
        Option.bind (lookupKey key model.states) (fun s => s.entry_action) = some ea ∧
        lookupKey ea actions = some a ∧
        st'.entry_action_call = ActionCall.call a.handler_call)) ∧
    ((Option.bind (lookupKey key model.states) (fun s => s.exit_action) = none ∧
        st'.exit_action_call = st.exit_action_call) ∨
     (∃ xa a,
        Option.bind (lookupKey key model.states) (fun s => s.exit_action) = some xa ∧
        lookupKey xa actions = some a ∧
        st'.exit_action_call = ActionCall.call a.handler_call)) := by
  unfold linkStateEntry at h
  cases he : Option.bind (lookupKey key model.states) (fun s => s.entry_action) with
  | none =>
    simp only [he] at h
    obtain ⟨h1, h2, h3, h4, h5, h6, h7⟩ := linkStateExit_ok h
    exact ⟨h1, h2, h3, h4, h5, Or.inl ⟨rfl, h6⟩, h7⟩
  | some ea =>
    simp only [he] at h
    cases ha : lookupKey ea actions with
    | none => rw [ha] at h; exact Except.noConfusion h
    | some a =>
      simp only [ha] at h
      obtain ⟨h1, h2, h3, h4, h5, h6, h7⟩ := linkStateExit_ok h
      exact ⟨h1, h2, h3, h4, h5, Or.inr ⟨ea, a, rfl, ha, h6⟩, h7⟩

theorem linkState_ok {model : Analyze.Model}
    {superstates : List (String × Superstate)} {actions : List (String × Action)}
    {key : String} {st st' : State}
    (h : linkState model superstates actions key st = Except.ok st') :
    st'.variant = st.variant ∧ st'.pat = st.pat ∧
    st'.handler_call = st.handler_call ∧ st'.constructor = st.constructor ∧
    ((Option.bind (lookupKey key model.states) (fun s => s.superstate) = none ∧
        st'.superstate_pat = st.superstate_pat) ∨
     (∃ sup target,
        Option.bind (lookupKey key model.states) (fun s => s.superstate) = some sup ∧
        lookupKey sup superstates = some target ∧
        st'.superstate_pat = some target.pat)) ∧
    ((Option.bind (lookupKey key model.states) (fun s => s.entry_action) = none ∧
        st'.entry_action_call = st.entry_action_call) ∨
     (∃ ea a,
        Option.bind (lookupKey key model.states) (fun s => s.entry_action) = some ea ∧
        lookupKey ea actions = some a ∧
        st'.entry_action_call = ActionCall.call a.handler_call)) ∧
    ((Option.bind (lookupKey key model.states) (fun s => s.exit_action) = none ∧
        st'.exit_action_call = st.exit_action_call) ∨
     (∃ xa a,
        Option.bind (lookupKey key model.states) (fun s => s.exit_action) = some xa ∧
        lookupKey xa actions = some a ∧
        st'.exit_action_call = ActionCall.call a.handler_call)) := by
  unfold linkState at h
  cases hs : Option.bind (lookupKey key model.states) (fun s => s.superstate) with
  | none =>
    simp only [hs] at h
    obtain ⟨h1, h2, h3, h4, h5, h6, h7⟩ := linkStateEntry_ok h
    exact ⟨h1, h2, h3, h4, Or.inl ⟨rfl, h5⟩, h6, h7⟩
  | some sup =>
    simp only [hs] at h
    cases ht : lookupKey sup superstates with
    | none => rw [ht] at h; exact Except.noConfusion h
    | some target =>
      simp only [ht] at h
      obtain ⟨h1, h2, h3, h4, h5, h6, h7⟩ := linkStateEntry_ok h
      exact ⟨h1, h2, h3, h4, Or.inr ⟨sup, target, rfl, ht, h5 ▸ rfl⟩, h6, h7⟩

theorem linkSuperstateExit_ok {model : Analyze.Model}
    {actions : List (String × Action)} {key : String} {ss ss' : Superstate}
    (h : linkSuperstateExit model actions key ss = Except.ok ss') :
    ss'.variant = ss.variant ∧ ss'.pat = ss.pat ∧
    ss'.handler_call = ss.handler_call ∧
    ss'.superstate_pat = ss.superstate_pat ∧
    ss'.entry_action_call = ss.entry_action_call ∧
    ((Option.bind (lookupKey key model.superstates) (fun s => s.exit_action) = none ∧
        ss'.exit_action_call = ss.exit_action_call) ∨
     (∃ xa a,
        Option.bind (lookupKey key model.superstates) (fun s => s.exit_action) = some xa ∧
        lookupKey xa actions = some a ∧
        ss'.exit_action_call = ActionCall.call a.handler_call)) := by
  unfold linkSuperstateExit at h
  cases hx : Option.bind (lookupKey key model.superstates) (fun s => s.exit_action) with
  | none =>
    simp only [hx] at h
    injection h with h
    subst h
    exact ⟨rfl, rfl, rfl, rfl, rfl, Or.inl ⟨rfl, rfl⟩⟩
  | some xa =>
    simp only [hx] at h
    cases ha : lookupKey xa actions with
    | none => rw [ha] at h; exact Except.noConfusion h
    | some a =>
      simp only [ha] at h
      injection h with h
      subst h
      exact ⟨rfl, rfl, rfl, rfl, rfl, Or.inr ⟨xa, a, rfl, ha, rfl⟩⟩

theorem linkSuperstateEntry_ok {model : Analyze.Model}
    {actions : List (String × Action)} {key : String} {ss ss' : Superstate}
    (h : linkSuperstateEntry model actions key ss = Except.ok ss') :
    ss'.variant = ss.variant ∧ ss'.pat = ss.pat ∧
    ss'.handler_call = ss.handler_call ∧
    ss'.superstate_pat = ss.superstate_pat ∧
    ((Option.bind (lookupKey key model.superstates) (fun s => s.entry_action) = none ∧
        ss'.entry_action_call = ss.entry_action_call) ∨
     (∃ ea a,
        Option.bind (lookupKey key model.superstates) (fun s => s.entry_action) = some ea ∧
        lookupKey ea actions = some a ∧
        ss'.entry_action_call = ActionCall.call a.handler_call)) ∧
    ((Option.bind (lookupKey key model.superstates) (fun s => s.exit_action) = none ∧
        ss'.exit_action_call = ss.exit_action_call) ∨
     (∃ xa a,
        Option.bind (lookupKey key model.superstates) (fun s => s.exit_action) = some xa ∧
        lookupKey xa actions = some a ∧
        ss'.exit_action_call = ActionCall.call a.handler_call)) := by
  unfold linkSuperstateEntry at h
  cases he : Option.bind (lookupKey key model.superstates) (fun s => s.entry_action) with
  | none =>
    simp only [he] at h
    obtain ⟨h1, h2, h3, h4, h5, h6⟩ := linkSuperstateExit_ok h
    exact ⟨h1, h2, h3, h4, Or.inl ⟨rfl, h5⟩, h6⟩
  | some ea =>
    simp only [he] at h
    cases ha : lookupKey ea actions with
    | none => rw [ha] at h; exact Except.noConfusion h
    | some a =>
      simp only [ha] at h
      obtain ⟨h1, h2, h3, h4, h5, h6⟩ := linkSuperstateExit_ok h
      exact ⟨h1, h2, h3, h4, Or.inr ⟨ea, a, rfl, ha, h5⟩, h6⟩

theorem linkSuperstate_ok {model : Analyze.Model}
    {superstates_clone : List (String × Superstate)}
    {actions : List (String × Action)} {key : String} {ss ss' : Superstate}
    (h : linkSuperstate model superstates_clone actions key ss = Except.ok ss') :
    ss'.variant = ss.variant ∧ ss'.pat = ss.pat ∧
    ss'.handler_call = ss.handler_call ∧
    ((Option.bind (lookupKey key model.superstates) (fun s => s.superstate) = none ∧
        ss'.superstate_pat = ss.superstate_pat) ∨
     (∃ sup target,
        Option.bind (lookupKey key model.superstates) (fun s => s.superstate) = some sup ∧
        lookupKey sup superstates_clone = some target ∧
        ss'.superstate_pat = some target.pat)) ∧
    ((Option.bind (lookupKey key model.superstates) (fun s => s.entry_action) = none ∧
        ss'.entry_action_call = ss.entry_action_call) ∨
     (∃ ea a,
        Option.bind (lookupKey key model.superstates) (fun s => s.entry_action) = some ea ∧
        lookupKey ea actions = some a ∧
        ss'.entry_action_call = ActionCall.call a.handler_call)) ∧
    ((Option.bind (lookupKey key model.superstates) (fun s => s.exit_action) = none ∧
        ss'.exit_action_call = ss.exit_action_call) ∨
     (∃ xa a,
        Option.bind (lookupKey key model.superstates) (fun s => s.exit_action) = some xa ∧
        lookupKey xa actions = some a ∧
        ss'.exit_action_call = ActionCall.call a.handler_call)) := by
  unfold linkSuperstate at h
  cases hs : Option.bind (lookupKey key model.superstates) (fun s => s.superstate) with
  | none =>
    simp only [hs] at h
    obtain ⟨h1, h2, h3, h4, h5, h6⟩ := linkSuperstateEntry_ok h
    exact ⟨h1, h2, h3, Or.inl ⟨rfl, h4⟩, h5, h6⟩
  | some sup =>
    simp only [hs] at h
    cases ht : lookupKey sup superstates_clone with
    | none => rw [ht] at h; exact Except.noConfusion h
    | some target =>
      simp only [ht] at h
      obtain ⟨h1, h2, h3, h4, h5, h6⟩ := linkSuperstateEntry_ok h
      exact ⟨h1, h2, h3, Or.inr ⟨sup, target, rfl, ht, h4 ▸ rfl⟩, h5, h6⟩

/-- Claim C10: linking modifies only the superstate pattern and the
entry/exit action calls; every descriptor in the final IR agrees with the
output of the per-item build phase on its variant, match pattern, handler
call and (for states) constructor. -/
theorem C10_linking_frame (model : Analyze.Model) (ir : Ir)
    (h : lower model = Except.ok ir) :
    (∀ k st, (k, st) ∈ ir.states →
      ∃ s st0, (k, s) ∈ model.states ∧
        lower_state s model.state_machine = Except.ok st0 ∧
        st.variant = st0.variant ∧ st.pat = st0.pat ∧
        st.handler_call = st0.handler_call ∧ st.constructor = st0.constructor) ∧
    (∀ k lw, (k, lw) ∈ ir.superstates →
      ∃ ss lw0, (k, ss) ∈ model.superstates ∧
        lower_superstate ss model.state_machine = Except.ok lw0 ∧
        lw.variant = lw0.variant ∧ lw.pat = lw0.pat ∧
        lw.handler_call = lw0.handler_call) := by
  obtain ⟨states0, superstates0, states, superstates, acc1, acc2,
    hbs, hbss, hls, hlss, _, _, hir⟩ := lower_ok_inv h
  have hirs : ir.states = states := by rw [hir]; rfl
  have hirss : ir.superstates = superstates := by rw [hir]; rfl
  constructor
  · intro k st hmem
    rw [hirs] at hmem
    obtain ⟨st0, hmem0, hlink⟩ := mapValuesE_mem_src hls hmem
    obtain ⟨s, hmems, hbuild⟩ := mapValuesE_mem_src hbs hmem0
    obtain ⟨h1, h2, h3, h4, _⟩ := linkState_ok hlink
    exact ⟨s, st0, hmems, hbuild, h1, h2, h3, h4⟩
  · intro k lw hmem
    rw [hirss] at hmem
    obtain ⟨lw0, hmem0, hlink⟩ := mapValuesE_mem_src hlss hmem
    obtain ⟨ss, hmems, hbuild⟩ := mapValuesE_mem_src hbss hmem0
    obtain ⟨h1, h2, h3, _⟩ := linkSuperstate_ok hlink
    exact ⟨ss, lw0, hmems, hbuild, h1, h2, h3⟩

/-- Witness for C10 at the blinky model. -/
theorem C10_linking_frame_witness :
    lower blinkyModel = Except.ok blinkyLoweredIr ∧
    ((∀ k st, (k, st) ∈ blinkyLoweredIr.states →
      ∃ s st0, (k, s) ∈ blinkyModel.states ∧
        lower_state s blinkyModel.state_machine = Except.ok st0 ∧
        st.variant = st0.variant ∧ st.pat = st0.pat ∧
        st.handler_call = st0.handler_call ∧ st.constructor = st0.constructor) ∧
    (∀ k lw, (k, lw) ∈ blinkyLoweredIr.superstates →
      ∃ ss lw0, (k, ss) ∈ blinkyModel.superstates ∧
        lower_superstate ss blinkyModel.state_machine = Except.ok lw0 ∧
        lw.variant = lw0.variant ∧ lw.pat = lw0.pat ∧
        lw.handler_call = lw0.handler_call)) :=
  ⟨rfl, C10_linking_frame blinkyModel blinkyLoweredIr rfl⟩

theorem lookupKey_isSome_of_mem_keys {α : Type} {key : String}
    {l : List (String × α)} (h : key ∈ l.map Prod.fst) :
    ∃ v, lookupKey key l = some v := by
  induction l with
  | nil => simp at h
  | cons kv rest ih =>
    simp only [List.map_cons, List.mem_cons] at h
    by_cases hk : kv.1 = key
    · exact ⟨kv.2, by simp [lookupKey, hk]⟩
    · rcases h with heq | hmem
      · exact absurd heq.symm hk
      · obtain ⟨v, hv⟩ := ih hmem
        exact ⟨v, by simp [lookupKey, hk, hv]⟩

theorem scanEventArg_error {ident : String} {cur : Option Ty}
    {arg : Option PatType} {e : LowerError}
    (h : scanEventArg ident cur arg = Except.error e) :
    e = LowerError.eventTypeNotReference := by
  cases arg with
  | none => simp only [scanEventArg] at h; exact Except.noConfusion h
  | some pt =>
    simp only [scanEventArg] at h
    by_cases hn : pt.name = ident
    · rw [if_pos hn] at h
      cases hty : pt.ty with
      | ref lt m elem => rw [hty] at h; exact Except.noConfusion h
      | unit => rw [hty] at h; injection h with h; exact h.symm
      | path n => rw [hty] at h; injection h with h; exact h.symm
    · rw [if_neg hn] at h
      exact Except.noConfusion h

theorem scanContextArg_error {ident : String} {cur : Option Ty}
    {arg : Option PatType} {e : LowerError}
    (h : scanContextArg ident cur arg = Except.error e) :
    e = LowerError.contextTypeNotReference := by
  cases arg with
  | none => simp only [scanContextArg] at h; exact Except.noConfusion h
  | some pt =>
    simp only [scanContextArg] at h
    by_cases hn : pt.name = ident
    · rw [if_pos hn] at h
      cases hty : pt.ty with
      | ref lt m elem => rw [hty] at h; exact Except.noConfusion h
      | unit => rw [hty] at h; injection h with h; exact h.symm
      | path n => rw [hty] at h; injection h with h; exact h.symm
    · rw [if_neg hn] at h
      exact Except.noConfusion h

theorem scanStates_error {sm : Analyze.StateMachine} :
    ∀ {l : List (String × Analyze.State)} {acc : ScanAcc} {e : LowerError},
      scanStates sm l acc = Except.error e →
        e = LowerError.eventTypeNotReference ∨
        e = LowerError.contextTypeNotReference := by
  intro l
  induction l with
  | nil => intro acc e h; simp only [scanStates] at h; exact Except.noConfusion h
  | cons kv rest ih =>
    intro acc e h
    simp only [scanStates] at h
    cases he : scanEventArg sm.event_ident acc.event_type kv.2.event_arg with
    | error e0 =>
      rw [he] at h
      injection h with h
      subst h
      exact Or.inl (scanEventArg_error he)
    | ok ev =>
      simp only [he] at h
      cases hc : scanContextArg sm.context_ident acc.context_type kv.2.context_arg with
      | error e0 =>
        rw [hc] at h
        injection h with h
        subst h
        exact Or.inr (scanContextArg_error hc)
      | ok ctx =>
        simp only [hc] at h
        exact ih h

theorem scanSuperstates_error {sm : Analyze.StateMachine} :
    ∀ {l : List (String × Analyze.Superstate)} {acc : ScanAcc} {e : LowerError},
      scanSuperstates sm l acc = Except.error e →
        e = LowerError.eventTypeNotReference ∨
        e = LowerError.contextTypeNotReference := by
  intro l
  induction l with
  | nil => intro acc e h; simp only [scanSuperstates] at h; exact Except.noConfusion h
  | cons kv rest ih =>
    intro acc e h
    simp only [scanSuperstates] at h
    cases he : scanEventArg sm.event_ident acc.event_type kv.2.event_arg with
    | error e0 =>
      rw [he] at h
      injection h with h
      subst h
      exact Or.inl (scanEventArg_error he)
    | ok ev =>
      simp only [he] at h
      cases hc : scanContextArg sm.context_ident acc.context_type kv.2.context_arg with
      | error e0 =>
        rw [hc] at h
        injection h with h
        subst h
        exact Or.inr (scanContextArg_error hc)
      | ok ctx =>
        simp only [hc] at h
        exact ih h

theorem lower_state_error {s : Analyze.State} {sm : Analyze.StateMachine}
    {e : LowerError} (h : lower_state s sm = Except.error e) :
    ∃ n, e = LowerError.inputNotReference n := by
  unfold lower_state at h
  cases hm : mapE fn_arg_to_state_field s.state_inputs with
  | ok inherited => simp only [hm] at h; exact Except.noConfusion h
  | error e0 =>
    rw [hm] at h
    injection h with h
    subst h
    obtain ⟨pt, _, hpt⟩ := mapE_error hm
    unfold fn_arg_to_state_field at hpt
    cases hty : pt.ty with
    | ref lt m elem => rw [hty] at hpt; exact Except.noConfusion hpt
    | unit => rw [hty] at hpt; injection hpt with hpt; exact ⟨pt.name, hpt.symm⟩
    | path n => rw [hty] at hpt; injection hpt with hpt; exact ⟨pt.name, hpt.symm⟩

theorem lower_superstate_error {ss : Analyze.Superstate}
    {sm : Analyze.StateMachine} {e : LowerError}
    (h : lower_superstate ss sm = Except.error e) :
    ∃ n, e = LowerError.inputNotReference n := by
  unfold lower_superstate at h
  cases hm : mapE fn_arg_to_superstate_field ss.state_inputs with
  | ok inherited => simp only [hm] at h; exact Except.noConfusion h
  | error e0 =>
    rw [hm] at h
    injection h with h
    subst h
    obtain ⟨pt, _, hpt⟩ := mapE_error hm
    unfold fn_arg_to_superstate_field at hpt
    cases hty : pt.ty with
    | ref lt m elem => rw [hty] at hpt; exact Except.noConfusion hpt
    | unit => rw [hty] at hpt; injection hpt with hpt; exact ⟨pt.name, hpt.symm⟩
    | path n => rw [hty] at hpt; injection hpt with hpt; exact ⟨pt.name, hpt.symm⟩

theorem buildStates_error {model : Analyze.Model} {e : LowerError}
    (h : buildStates model = Except.error e) :
    ∃ n, e = LowerError.inputNotReference n := by
  obtain ⟨k, s, _, hs⟩ := mapValuesE_error h
  exact lower_state_error hs

theorem buildSuperstates_error {model : Analyze.Model} {e : LowerError}
    (h : buildSuperstates model = Except.error e) :
    ∃ n, e = LowerError.inputNotReference n := by
  obtain ⟨k, ss, _, hss⟩ := mapValuesE_error h
  exact lower_superstate_error hss

theorem linkStateExit_error {model : Analyze.Model}
    {actions : List (String × Action)} {key : String} {st : State} {e : LowerError}
    (h : linkStateExit model actions key st = Except.error e) :
    ∃ xa, Option.bind (lookupKey key model.states) (fun s => s.exit_action) = some xa ∧
      lookupKey xa actions = none ∧ e = LowerError.exitActionNotFound xa := by
  unfold linkStateExit at h
  cases hx : Option.bind (lookupKey key model.states) (fun s => s.exit_action) with
  | none => simp only [hx] at h; exact Except.noConfusion h
  | some xa =>
    simp only [hx] at h
    cases ha : lookupKey xa actions with
    | some a => simp only [ha] at h; exact Except.noConfusion h
    | none =>
      rw [ha] at h
      injection h with h
      exact ⟨xa, rfl, ha, h.symm⟩

theorem linkStateEntry_error {model : Analyze.Model}
    {actions : List (String × Action)} {key : String} {st : State} {e : LowerError}
    (h : linkStateEntry model actions key st = Except.error e) :
    (∃ ea, Option.bind (lookupKey key model.states) (fun s => s.entry_action) = some ea ∧
      lookupKey ea actions = none ∧ e = LowerError.entryActionNotFound ea) ∨
    (∃ xa, Option.bind (lookupKey key model.states) (fun s => s.exit_action) = some xa ∧
      lookupKey xa actions = none ∧ e = LowerError.exitActionNotFound xa) := by
  unfold linkStateEntry at h
  cases he : Option.bind (lookupKey key model.states) (fun s => s.entry_action) with
  | none =>
    simp only [he] at h
    exact Or.inr (linkStateExit_error h)
  | some ea =>
    simp only [he] at h
    cases ha : lookupKey ea actions with
    | some a =>
      simp only [ha] at h
      exact Or.inr (linkStateExit_error h)
    | none =>
      rw [ha] at h
      injection h with h
      exact Or.inl ⟨ea, rfl, ha, h.symm⟩

theorem linkState_error {model : Analyze.Model}
    {superstates : List (String × Superstate)} {actions : List (String × Action)}
    {key : String} {st : State} {e : LowerError}
    (h : linkState model superstates actions key st = Except.error e) :
    (∃ sup, Option.bind (lookupKey key model.states) (fun s => s.superstate) = some sup ∧
      lookupKey sup superstates = none ∧ e = LowerError.superstateNotFound sup) ∨
    (∃ ea, Option.bind (lookupKey key model.states) (fun s => s.entry_action) = some ea ∧
      lookupKey ea actions = none ∧ e = LowerError.entryActionNotFound ea) ∨
    (∃ xa, Option.bind (lookupKey key model.states) (fun s => s.exit_action) = some xa ∧
      lookupKey xa actions = none ∧ e = LowerError.exitActionNotFound xa) := by
  unfold linkState at h
  cases hs : Option.bind (lookupKey key model.states) (fun s => s.superstate) with
  | none =>
    simp only [hs] at h
    exact Or.inr (linkStateEntry_error h)
  | some sup =>
    simp only [hs] at h
    cases ht : lookupKey sup superstates with
    | some target =>
      simp only [ht] at h
      exact Or.inr (linkStateEntry_error h)
    | none =>
      rw [ht] at h
      injection h with h
      exact Or.inl ⟨sup, rfl, ht, h.symm⟩

theorem linkSuperstateExit_error {model : Analyze.Model}
    {actions : List (String × Action)} {key : String} {ss : Superstate}
    {e : LowerError}
    (h : linkSuperstateExit model actions key ss = Except.error e) :
    ∃ xa, Option.bind (lookupKey key model.superstates) (fun s => s.exit_action) = some xa ∧
      lookupKey xa actions = none ∧ e = LowerError.actionNotFound xa := by
  unfold linkSuperstateExit at h
  cases hx : Option.bind (lookupKey key model.superstates) (fun s => s.exit_action) with
  | none => simp only [hx] at h; exact Except.noConfusion h
  | some xa =>
    simp only [hx] at h
    cases ha : lookupKey xa actions with
    | some a => simp only [ha] at h; exact Except.noConfusion h
    | none =>
      rw [ha] at h
      injection h with h
      exact ⟨xa, rfl, ha, h.symm⟩

theorem linkSuperstateEntry_error {model : Analyze.Model}
    {actions : List (String × Action)} {key : String} {ss : Superstate}
    {e : LowerError}
    (h : linkSuperstateEntry model actions key ss = Except.error e) :
    (∃ ea, Option.bind (lookupKey key model.superstates) (fun s => s.entry_action) = some ea ∧
      lookupKey ea actions = none ∧ e = LowerError.actionNotFound ea) ∨
    (∃ xa, Option.bind (lookupKey key model.superstates) (fun s => s.exit_action) = some xa ∧
      lookupKey xa actions = none ∧ e = LowerError.actionNotFound xa) := by
  unfold linkSuperstateEntry at h
  cases he : Option.bind (lookupKey key model.superstates) (fun s => s.entry_action) with
  | none =>
    simp only [he] at h
    exact Or.inr (linkSuperstateExit_error h)
  | some ea =>
    simp only [he] at h
    cases ha : lookupKey ea actions with
    | some a =>
      simp only [ha] at h
      exact Or.inr (linkSuperstateExit_error h)
    | none =>
      rw [ha] at h
      injection h with h
      exact Or.inl ⟨ea, rfl, ha, h.symm⟩

theorem linkSuperstate_error {model : Analyze.Model}
    {superstates_clone : List (String × Superstate)}
    {actions : List (String × Action)} {key : String} {ss : Superstate}
    {e : LowerError}
    (h : linkSuperstate model superstates_clone actions key ss = Except.error e) :
    (∃ sup, Option.bind (lookupKey key model.superstates) (fun s => s.superstate) = some sup ∧
      lookupKey sup superstates_clone = none ∧ e = LowerError.superstateNotFound sup) ∨
    (∃ ea, Option.bind (lookupKey key model.superstates) (fun s => s.entry_action) = some ea ∧
      lookupKey ea actions = none ∧ e = LowerError.actionNotFound ea) ∨
    (∃ xa, Option.bind (lookupKey key model.superstates) (fun s => s.exit_action) = some xa ∧
      lookupKey xa actions = none ∧ e = LowerError.actionNotFound xa) := by
  unfold linkSuperstate at h
  cases hs : Option.bind (lookupKey key model.superstates) (fun s => s.superstate) with
  | none =>
    simp only [hs] at h
    exact Or.inr (linkSuperstateEntry_error h)
  | some sup =>
    simp only [hs] at h
    cases ht : lookupKey sup superstates_clone with
    | some target =>
      simp only [ht] at h
      exact Or.inr (linkSuperstateEntry_error h)
    | none =>
      rw [ht] at h
      injection h with h
      exact Or.inl ⟨sup, rfl, ht, h.symm⟩

/-- Inversion of a failed run of `lower` into the phase that raised the
diagnostic. -/
theorem lower_error_inv {model : Analyze.Model} {e : LowerError}
    (h : lower model = Except.error e) :
    buildStates model = Except.error e ∨
    buildSuperstates model = Except.error e ∨
    (∃ states0 superstates0,
      buildStates model = Except.ok states0 ∧
      buildSuperstates model = Except.ok superstates0 ∧
      linkStates model superstates0 (buildActions model) states0 = Except.error e) ∨
    (∃ states0 superstates0,
      buildStates model = Except.ok states0 ∧
      buildSuperstates model = Except.ok superstates0 ∧
      linkSuperstates model superstates0 (buildActions model) superstates0 =
        Except.error e) ∨
    scanStates model.state_machine model.states
      { mode := Mode.blocking, event_type := none, context_type := none } =
        Except.error e ∨
    (∃ acc1,
      scanStates model.state_machine model.states
        { mode := Mode.blocking, event_type := none, context_type := none } =
          Except.ok acc1 ∧
      scanSuperstates model.state_machine model.superstates acc1 =
        Except.error e) := by
  unfold lower at h
  cases hst : buildStates model with
  | error e0 =>
    simp only [hst] at h
    injection h with h
    subst h
    exact Or.inl rfl
  | ok states0 =>
  simp only [hst] at h
  cases hsst : buildSuperstates model with
  | error e0 =>
    simp only [hsst] at h
    injection h with h
    subst h
    exact Or.inr (Or.inl rfl)
  | ok superstates0 =>
  simp only [hsst] at h
  cases hls : linkStates model superstates0 (buildActions model) states0 with
  | error e0 =>
    simp only [hls] at h
    injection h with h
    subst h
    exact Or.inr (Or.inr (Or.inl ⟨states0, superstates0, rfl, rfl, hls⟩))
  | ok states =>
  simp only [hls] at h
  cases hlss : linkSuperstates model superstates0 (buildActions model) superstates0 with
  | error e0 =>
    simp only [hlss] at h
    injection h with h
    subst h
    exact Or.inr (Or.inr (Or.inr (Or.inl ⟨states0, superstates0, rfl, rfl, hlss⟩)))
  | ok superstates =>
  simp only [hlss] at h
  cases hsc1 : scanStates model.state_machine model.states
      { mode := Mode.blocking, event_type := none, context_type := none } with
  | error e0 =>
    simp only [hsc1] at h
    injection h with h
    subst h
    exact Or.inr (Or.inr (Or.inr (Or.inr (Or.inl rfl))))
  | ok acc1 =>
  simp only [hsc1] at h
  cases hsc2 : scanSuperstates model.state_machine model.superstates acc1 with
  | error e0 =>
    simp only [hsc2] at h
    injection h with h
    subst h
    exact Or.inr (Or.inr (Or.inr (Or.inr (Or.inr ⟨acc1, rfl, hsc2⟩))))
  | ok acc2 =>
  simp only [hsc2] at h
  exact Except.noConfusion h

/-- Claim C3: for every state (and symmetrically every superstate) that
declares a superstate name p, linking sets its superstate pattern to the
pattern of p exactly when a superstate descriptor named p exists; a dangling
name makes the whole pass fail producing no IR, and a reported
"superstate not found" diagnostic always names a declared-but-missing
superstate reference; a descriptor declaring no superstate keeps the
pattern None. -/
theorem C3_superstate_linking (model : Analyze.Model)
    (hkeys : (model.states.map Prod.fst).Nodup)
    (hskeys : (model.superstates.map Prod.fst).Nodup) :
    (∀ ir, lower model = Except.ok ir →
      ∀ k s st, (k, s) ∈ model.states → (k, st) ∈ ir.states →
        (s.superstate = none → st.superstate_pat = none) ∧
        (∀ p, s.superstate = some p →
          ∃ pspec plw, (p, pspec) ∈ model.superstates ∧
            lower_superstate pspec model.state_machine = Except.ok plw ∧
            st.superstate_pat = some plw.pat)) ∧
    (∀ ir, lower model = Except.ok ir →
      ∀ k ss lw, (k, ss) ∈ model.superstates → (k, lw) ∈ ir.superstates →
        (ss.superstate = none → lw.superstate_pat = none) ∧
        (∀ p, ss.superstate = some p →
          ∃ pspec plw, (p, pspec) ∈ model.superstates ∧
            lower_superstate pspec model.state_machine = Except.ok plw ∧
            lw.superstate_pat = some plw.pat)) ∧
    (∀ k s p, (k, s) ∈ model.states → s.superstate = some p →
      p ∉ model.superstates.map Prod.fst → ∀ ir, lower model ≠ Except.ok ir) ∧
    (∀ k ss p, (k, ss) ∈ model.superstates → ss.superstate = some p →
      p ∉ model.superstates.map Prod.fst → ∀ ir, lower model ≠ Except.ok ir) ∧
    (∀ p, lower model = Except.error (LowerError.superstateNotFound p) →
      ((∃ kv ∈ model.states, kv.2.superstate = some p) ∨
       (∃ kv ∈ model.superstates, kv.2.superstate = some p)) ∧
      p ∉ model.superstates.map Prod.fst) := by
  refine ⟨?_, ?_, ?_, ?_, ?_⟩
  · -- success characterization for states
    intro ir hok k s st hks hkst
    obtain ⟨states0, superstates0, states, superstates, acc1, acc2,
      hbs, hbss, hls, hlss, _, _, hir⟩ := lower_ok_inv hok
    have hirs : ir.states = states := by rw [hir]; rfl
    rw [hirs] at hkst
    obtain ⟨st0, hmem0, hlink⟩ := mapValuesE_mem_src hls hkst
    have hlook : lookupKey k model.states = some s :=
      lookupKey_eq_some_of_mem hks hkeys
    obtain ⟨_, _, _, _, hsup, _, _⟩ := linkState_ok hlink
    rw [hlook, Option.some_bind] at hsup
    constructor
    · intro hnone
      rcases hsup with ⟨_, hpat⟩ | ⟨sup, target, hbind, _, _⟩
      · obtain ⟨s', hmem', hbuild⟩ := mapValuesE_mem_src hbs hmem0
        obtain ⟨_, _, _, _, _, _, _, hsp0, _⟩ := lower_state_ok_inv hbuild
        rw [hpat, hsp0]
      · rw [hnone] at hbind
        exact Option.noConfusion hbind
    · intro p hp
      rcases hsup with ⟨hbind, _⟩ | ⟨sup, target, hbind, htarget, hpat⟩
      · rw [hp] at hbind
        exact Option.noConfusion hbind
      · rw [hp] at hbind
        injection hbind with hbind
        subst hbind
        obtain ⟨pspec, hpmem, hpbuild⟩ :=
          mapValuesE_mem_src hbss (lookupKey_mem htarget)
        exact ⟨pspec, target, hpmem, hpbuild, hpat⟩
  · -- success characterization for superstates
    intro ir hok k ss lw hks hklw
    obtain ⟨states0, superstates0, states, superstates, acc1, acc2,
      hbs, hbss, hls, hlss, _, _, hir⟩ := lower_ok_inv hok
    have hirss : ir.superstates = superstates := by rw [hir]; rfl
    rw [hirss] at hklw
    obtain ⟨lw0, hmem0, hlink⟩ := mapValuesE_mem_src hlss hklw
    have hlook : lookupKey k model.superstates = some ss :=
      lookupKey_eq_some_of_mem hks hskeys
    obtain ⟨_, _, _, hsup, _, _⟩ := linkSuperstate_ok hlink
    rw [hlook, Option.some_bind] at hsup
    constructor
    · intro hnone
      rcases hsup with ⟨_, hpat⟩ | ⟨sup, target, hbind, _, _⟩
      · obtain ⟨ss', hmem', hbuild⟩ := mapValuesE_mem_src hbss hmem0
        obtain ⟨_, _, _, _, _, _, _, hsp0⟩ := lower_superstate_ok_inv hbuild
        rw [hpat, hsp0]
      · rw [hnone] at hbind
        exact Option.noConfusion hbind
    · intro p hp
      rcases hsup with ⟨hbind, _⟩ | ⟨sup, target, hbind, htarget, hpat⟩
      · rw [hp] at hbind
        exact Option.noConfusion hbind
      · rw [hp] at hbind
        injection hbind with hbind
        subst hbind
        obtain ⟨pspec, hpmem, hpbuild⟩ :=
          mapValuesE_mem_src hbss (lookupKey_mem htarget)
        exact ⟨pspec, target, hpmem, hpbuild, hpat⟩
  · -- a dangling state-declared superstate aborts the pass
    intro k s p hks hsup hnotin ir hok
    obtain ⟨states0, superstates0, states, superstates, acc1, acc2,
      hbs, hbss, hls, hlss, _, _, hir⟩ := lower_ok_inv hok
    obtain ⟨st0, hmem0, hbuild⟩ := mapValuesE_mem_dst hbs hks
    obtain ⟨st', hmem', hlink⟩ := mapValuesE_mem_dst hls hmem0
    have hlook : lookupKey k model.states = some s :=
      lookupKey_eq_some_of_mem hks hkeys
    obtain ⟨_, _, _, _, hsupd, _, _⟩ := linkState_ok hlink
    rw [hlook, Option.some_bind, hsup] at hsupd
    rcases hsupd with ⟨hbind, _⟩ | ⟨sup, target, hbind, htarget, _⟩
    · exact Option.noConfusion hbind
    · injection hbind with hbind
      rw [← hbind] at htarget
      have hmemk : p ∈ superstates0.map Prod.fst :=
        mem_keys_of_lookupKey_some htarget
      rw [mapValuesE_keys hbss] at hmemk
      exact hnotin hmemk
  · -- a dangling superstate-declared parent aborts the pass
    intro k ss p hks hsup hnotin ir hok
    obtain ⟨states0, superstates0, states, superstates, acc1, acc2,
      hbs, hbss, hls, hlss, _, _, hir⟩ := lower_ok_inv hok
    obtain ⟨lw0, hmem0, hbuild⟩ := mapValuesE_mem_dst hbss hks
    obtain ⟨lw', hmem', hlink⟩ := mapValuesE_mem_dst hlss hmem0
    have hlook : lookupKey k model.superstates = some ss :=
      lookupKey_eq_some_of_mem hks hskeys
    obtain ⟨_, _, _, hsupd, _, _⟩ := linkSuperstate_ok hlink
    rw [hlook, Option.some_bind, hsup] at hsupd
    rcases hsupd with ⟨hbind, _⟩ | ⟨sup, target, hbind, htarget, _⟩
    · exact Option.noConfusion hbind
    · injection hbind with hbind
      rw [← hbind] at htarget
      have hmemk : p ∈ superstates0.map Prod.fst :=
        mem_keys_of_lookupKey_some htarget
      rw [mapValuesE_keys hbss] at hmemk
      exact hnotin hmemk
  · -- a reported diagnostic names a genuinely dangling reference
    intro p herr
    rcases lower_error_inv herr with hphase | hphase | hphase | hphase | hphase | hphase
    · obtain ⟨n, hn⟩ := buildStates_error hphase
      exact LowerError.noConfusion hn
    · obtain ⟨n, hn⟩ := buildSuperstates_error hphase
      exact LowerError.noConfusion hn
    · obtain ⟨states0, superstates0, hbs, hbss, hlserr⟩ := hphase
      obtain ⟨k, st0, hmem0, hlink⟩ := mapValuesE_error hlserr
      rcases linkState_error hlink with
        ⟨sup, hbind, hnone, heq⟩ | ⟨ea, _, _, heq⟩ | ⟨xa, _, _, heq⟩
      · injection heq with heq
        subst heq
        obtain ⟨s, hlook, hsups⟩ := Option.bind_eq_some.mp hbind
        refine ⟨Or.inl ⟨(k, s), lookupKey_mem hlook, hsups⟩, ?_⟩
        intro hin
        rw [← mapValuesE_keys hbss] at hin
        obtain ⟨v, hv⟩ := lookupKey_isSome_of_mem_keys hin
        rw [hv] at hnone
        exact Option.noConfusion hnone
      · exact LowerError.noConfusion heq
      · exact LowerError.noConfusion heq
    · obtain ⟨states0, superstates0, hbs, hbss, hlsserr⟩ := hphase
      obtain ⟨k, lw0, hmem0, hlink⟩ := mapValuesE_error hlsserr
      rcases linkSuperstate_error hlink with
        ⟨sup, hbind, hnone, heq⟩ | ⟨ea, _, _, heq⟩ | ⟨xa, _, _, heq⟩
      · injection heq with heq
        subst heq
        obtain ⟨ss, hlook, hsups⟩ := Option.bind_eq_some.mp hbind
        refine ⟨Or.inr ⟨(k, ss), lookupKey_mem hlook, hsups⟩, ?_⟩
        intro hin
        rw [← mapValuesE_keys hbss] at hin
        obtain ⟨v, hv⟩ := lookupKey_isSome_of_mem_keys hin
        rw [hv] at hnone
        exact Option.noConfusion hnone
      · exact LowerError.noConfusion heq
      · exact LowerError.noConfusion heq
    · rcases scanStates_error hphase with hn | hn <;> exact LowerError.noConfusion hn
    · obtain ⟨acc1, _, hscerr⟩ := hphase
      rcases scanSuperstates_error hscerr with hn | hn <;>
        exact LowerError.noConfusion hn

/-- Witness for C3 at the blinky model. -/
theorem C3_superstate_linking_witness :
    ((blinkyModel.states.map Prod.fst).Nodup ∧
     (blinkyModel.superstates.map Prod.fst).Nodup) ∧
    ((∀ ir, lower blinkyModel = Except.ok ir →
      ∀ k s st, (k, s) ∈ blinkyModel.states → (k, st) ∈ ir.states →
        (s.superstate = none → st.superstate_pat = none) ∧
        (∀ p, s.superstate = some p →
          ∃ pspec plw, (p, pspec) ∈ blinkyModel.superstates ∧
            lower_superstate pspec blinkyModel.state_machine = Except.ok plw ∧
            st.superstate_pat = some plw.pat)) ∧
    (∀ ir, lower blinkyModel = Except.ok ir →
      ∀ k ss lw, (k, ss) ∈ blinkyModel.superstates → (k, lw) ∈ ir.superstates →
        (ss.superstate = none → lw.superstate_pat = none) ∧
        (∀ p, ss.superstate = some p →
          ∃ pspec plw, (p, pspec) ∈ blinkyModel.superstates ∧
            lower_superstate pspec blinkyModel.state_machine = Except.ok plw ∧
            lw.superstate_pat = some plw.pat)) ∧
    (∀ k s p, (k, s) ∈ blinkyModel.states → s.superstate = some p →
      p ∉ blinkyModel.superstates.map Prod.fst →
        ∀ ir, lower blinkyModel ≠ Except.ok ir) ∧
    (∀ k ss p, (k, ss) ∈ blinkyModel.superstates → ss.superstate = some p →
      p ∉ blinkyModel.superstates.map Prod.fst →
        ∀ ir, lower blinkyModel ≠ Except.ok ir) ∧
    (∀ p, lower blinkyModel = Except.error (LowerError.superstateNotFound p) →
      ((∃ kv ∈ blinkyModel.states, kv.2.superstate = some p) ∨
       (∃ kv ∈ blinkyModel.superstates, kv.2.superstate = some p)) ∧
      p ∉ blinkyModel.superstates.map Prod.fst)) :=
  ⟨⟨by decide, by decide⟩,
    C3_superstate_linking blinkyModel (by decide) (by decide)⟩

theorem buildActions_keys (model : Analyze.Model) :
    (buildActions model).map Prod.fst = model.actions.map Prod.fst := by
  unfold buildActions
  rw [List.map_map]
  rfl

theorem buildActions_mem {model : Analyze.Model} {k : String} {a : Action}
    (h : (k, a) ∈ buildActions model) :
    ∃ aspec, (k, aspec) ∈ model.actions ∧
      a = lower_action aspec model.state_machine := by
  unfold buildActions at h
  obtain ⟨kv, hmem, heq⟩ := List.mem_map.mp h
  injection heq with h1 h2
  subst h1
  subst h2
  exact ⟨kv.2, hmem, rfl⟩

/-- Claim C4 (counterexample to the entry/exit tagging): a superstate
declaring the dangling entry action "missing" makes the pass fail with the
untagged "action not found" diagnostic, not with a diagnostic tagged as
entry or exit. -/
theorem C4_action_tagging_counterexample :
    lower danglingSuperstateEntryModel =
      Except.error (LowerError.actionNotFound "missing") ∧
    LowerError.actionNotFound "missing" ≠
      LowerError.entryActionNotFound "missing" ∧
    LowerError.actionNotFound "missing" ≠
      LowerError.exitActionNotFound "missing" :=
  ⟨rfl, by decide, by decide⟩

/-- Claim C4 as amended: a declared entry (resp. exit) action name is bound,
after linking, to the named action descriptor's handler-call expression when
a matching action descriptor exists, and the default call stays the empty
block when no name is declared; a dangling name makes the whole pass fail
producing no IR.  The failure diagnostic is tagged as entry
("entry action not found") or exit ("exit action not found") for STATES, but
is the untagged "action not found" for SUPERSTATES; every reported
diagnostic names a genuinely dangling declared action reference. -/
theorem C4_action_linking (model : Analyze.Model)
    (hkeys : (model.states.map Prod.fst).Nodup)
    (hskeys : (model.superstates.map Prod.fst).Nodup) :
    (∀ ir, lower model = Except.ok ir →
      ∀ k s st, (k, s) ∈ model.states → (k, st) ∈ ir.states →
        (s.entry_action = none → st.entry_action_call = ActionCall.emptyBlock) ∧
        (∀ n, s.entry_action = some n →
          ∃ aspec, (n, aspec) ∈ model.actions ∧
            st.entry_action_call =
              ActionCall.call (lower_action aspec model.state_machine).handler_call) ∧
        (s.exit_action = none → st.exit_action_call = ActionCall.emptyBlock) ∧
        (∀ n, s.exit_action = some n →
          ∃ aspec, (n, aspec) ∈ model.actions ∧
            st.exit_action_call =
              ActionCall.call (lower_action aspec model.state_machine).handler_call)) ∧
    (∀ ir, lower model = Except.ok ir →
      ∀ k ss lw, (k, ss) ∈ model.superstates → (k, lw) ∈ ir.superstates →
        (ss.entry_action = none → lw.entry_action_call = ActionCall.emptyBlock) ∧
        (∀ n, ss.entry_action = some n →
          ∃ aspec, (n, aspec) ∈ model.actions ∧
            lw.entry_action_call =
              ActionCall.call (lower_action aspec model.state_machine).handler_call) ∧
        (ss.exit_action = none → lw.exit_action_call = ActionCall.emptyBlock) ∧
        (∀ n, ss.exit_action = some n →
          ∃ aspec, (n, aspec) ∈ model.actions ∧
            lw.exit_action_call =
              ActionCall.call (lower_action aspec model.state_machine).handler_call)) ∧
    (∀ k s n, (k, s) ∈ model.states →
      (s.entry_action = some n ∨ s.exit_action = some n) →
      n ∉ model.actions.map Prod.fst → ∀ ir, lower model ≠ Except.ok ir) ∧
    (∀ k ss n, (k, ss) ∈ model.superstates →
      (ss.entry_action = some n ∨ ss.exit_action = some n) →
      n ∉ model.actions.map Prod.fst → ∀ ir, lower model ≠ Except.ok ir) ∧
    (∀ n, lower model = Except.error (LowerError.entryActionNotFound n) →
      (∃ kv ∈ model.states, kv.2.entry_action = some n) ∧
      n ∉ model.actions.map Prod.fst) ∧
    (∀ n, lower model = Except.error (LowerError.exitActionNotFound n) →
      (∃ kv ∈ model.states, kv.2.exit_action = some n) ∧
      n ∉ model.actions.map Prod.fst) ∧
    (∀ n, lower model = Except.error (LowerError.actionNotFound n) →
      (∃ kv ∈ model.superstates,
        kv.2.entry_action = some n ∨ kv.2.exit_action = some n) ∧
      n ∉ model.actions.map Prod.fst) := by
  refine ⟨?_, ?_, ?_, ?_, ?_, ?_, ?_⟩
  · -- success characterization for states
    intro ir hok k s st hks hkst
    obtain ⟨states0, superstates0, states, superstates, acc1, acc2,
      hbs, hbss, hls, hlss, _, _, hir⟩ := lower_ok_inv hok
    have hirs : ir.states = states := by rw [hir]; rfl
    rw [hirs] at hkst
    obtain ⟨st0, hmem0, hlink⟩ := mapValuesE_mem_src hls hkst
    obtain ⟨s0, hmems0, hbuild⟩ := mapValuesE_mem_src hbs hmem0
    obtain ⟨_, _, _, _, _, hen0, hex0, _, _⟩ := lower_state_ok_inv hbuild
    have hlook : lookupKey k model.states = some s :=
      lookupKey_eq_some_of_mem hks hkeys
    obtain ⟨_, _, _, _, _, hentry, hexit⟩ := linkState_ok hlink
    rw [hlook, Option.some_bind] at hentry hexit
    refine ⟨?_, ?_, ?_, ?_⟩
    · intro hnone
      rcases hentry with ⟨_, hcall⟩ | ⟨ea, a, hbind, _, _⟩
      · rw [hcall, hen0]
      · rw [hnone] at hbind
        exact Option.noConfusion hbind
    · intro n hn
      rcases hentry with ⟨hbind, _⟩ | ⟨ea, a, hbind, hlooka, hcall⟩
      · rw [hn] at hbind
        exact Option.noConfusion hbind
      · rw [hn] at hbind
        injection hbind with hbind
        rw [← hbind] at hlooka
        obtain ⟨aspec, hamem, haeq⟩ := buildActions_mem (lookupKey_mem hlooka)
        exact ⟨aspec, hamem, by rw [hcall, haeq]⟩
    · intro hnone
      rcases hexit with ⟨_, hcall⟩ | ⟨xa, a, hbind, _, _⟩
      · rw [hcall, hex0]
      · rw [hnone] at hbind
        exact Option.noConfusion hbind
    · intro n hn
      rcases hexit with ⟨hbind, _⟩ | ⟨xa, a, hbind, hlooka, hcall⟩
      · rw [hn] at hbind
        exact Option.noConfusion hbind
      · rw [hn] at hbind
        injection hbind with hbind
        rw [← hbind] at hlooka
        obtain ⟨aspec, hamem, haeq⟩ := buildActions_mem (lookupKey_mem hlooka)
        exact ⟨aspec, hamem, by rw [hcall, haeq]⟩
  · -- success characterization for superstates
    intro ir hok k ss lw hks hklw
    obtain ⟨states0, superstates0, states, superstates, acc1, acc2,
      hbs, hbss, hls, hlss, _, _, hir⟩ := lower_ok_inv hok
    have hirss : ir.superstates = superstates := by rw [hir]; rfl
    rw [hirss] at hklw
    obtain ⟨lw0, hmem0, hlink⟩ := mapValuesE_mem_src hlss hklw
    obtain ⟨ss0, hmems0, hbuild⟩ := mapValuesE_mem_src hbss hmem0
    obtain ⟨_, _, _, _, _, hen0, hex0, _⟩ := lower_superstate_ok_inv hbuild
    have hlook : lookupKey k model.superstates = some ss :=
      lookupKey_eq_some_of_mem hks hskeys
    obtain ⟨_, _, _, _, hentry, hexit⟩ := linkSuperstate_ok hlink
    rw [hlook, Option.some_bind] at hentry hexit
    refine ⟨?_, ?_, ?_, ?_⟩
    · intro hnone
      rcases hentry with ⟨_, hcall⟩ | ⟨ea, a, hbind, _, _⟩
      · rw [hcall, hen0]
      · rw [hnone] at hbind
        exact Option.noConfusion hbind
    · intro n hn
      rcases hentry with ⟨hbind, _⟩ | ⟨ea, a, hbind, hlooka, hcall⟩
      · rw [hn] at hbind
        exact Option.noConfusion hbind
      · rw [hn] at hbind
        injection hbind with hbind
        rw [← hbind] at hlooka
        obtain ⟨aspec, hamem, haeq⟩ := buildActions_mem (lookupKey_mem hlooka)
        exact ⟨aspec, hamem, by rw [hcall, haeq]⟩
    · intro hnone
      rcases hexit with ⟨_, hcall⟩ | ⟨xa, a, hbind, _, _⟩
      · rw [hcall, hex0]
      · rw [hnone] at hbind
        exact Option.noConfusion hbind
    · intro n hn
      rcases hexit with ⟨hbind, _⟩ | ⟨xa, a, hbind, hlooka, hcall⟩
      · rw [hn] at hbind
        exact Option.noConfusion hbind
      · rw [hn] at hbind
        injection hbind with hbind
        rw [← hbind] at hlooka
        obtain ⟨aspec, hamem, haeq⟩ := buildActions_mem (lookupKey_mem hlooka)
        exact ⟨aspec, hamem, by rw [hcall, haeq]⟩
  · -- dangling state action aborts the pass
    intro k s n hks hdecl hnotin ir hok
    obtain ⟨states0, superstates0, states, superstates, acc1, acc2,
      hbs, hbss, hls, hlss, _, _, hir⟩ := lower_ok_inv hok
    obtain ⟨st0, hmem0, hbuild⟩ := mapValuesE_mem_dst hbs hks
    obtain ⟨st', hmem', hlink⟩ := mapValuesE_mem_dst hls hmem0
    have hlook : lookupKey k model.states = some s :=
      lookupKey_eq_some_of_mem hks hkeys
    obtain ⟨_, _, _, _, _, hentry, hexit⟩ := linkState_ok hlink
    rw [hlook, Option.some_bind] at hentry hexit
    have hkeysa : ∀ a, lookupKey n (buildActions model) ≠ some a := by
      intro a ha
      have := mem_keys_of_lookupKey_some ha
      rw [buildActions_keys] at this
      exact hnotin this
    rcases hdecl with hde | hdx
    · rcases hentry with ⟨hbind, _⟩ | ⟨ea, a, hbind, hlooka, _⟩
      · rw [hde] at hbind
        exact Option.noConfusion hbind
      · rw [hde] at hbind
        injection hbind with hbind
        rw [← hbind] at hlooka
        exact hkeysa a hlooka
    · rcases hexit with ⟨hbind, _⟩ | ⟨xa, a, hbind, hlooka, _⟩
      · rw [hdx] at hbind
        exact Option.noConfusion hbind
      · rw [hdx] at hbind
        injection hbind with hbind
        rw [← hbind] at hlooka
        exact hkeysa a hlooka
  · -- dangling superstate action aborts the pass
    intro k ss n hks hdecl hnotin ir hok
    obtain ⟨states0, superstates0, states, superstates, acc1, acc2,
      hbs, hbss, hls, hlss, _, _, hir⟩ := lower_ok_inv hok
    obtain ⟨lw0, hmem0, hbuild⟩ := mapValuesE_mem_dst hbss hks
    obtain ⟨lw', hmem', hlink⟩ := mapValuesE_mem_dst hlss hmem0
    have hlook : lookupKey k model.superstates = some ss :=
      lookupKey_eq_some_of_mem hks hskeys
    obtain ⟨_, _, _, _, hentry, hexit⟩ := linkSuperstate_ok hlink
    rw [hlook, Option.some_bind] at hentry hexit
    have hkeysa : ∀ a, lookupKey n (buildActions model) ≠ some a := by
      intro a ha
      have := mem_keys_of_lookupKey_some ha
      rw [buildActions_keys] at this
      exact hnotin this
    rcases hdecl with hde | hdx
    · rcases hentry with ⟨hbind, _⟩ | ⟨ea, a, hbind, hlooka, _⟩
      · rw [hde] at hbind
        exact Option.noConfusion hbind
      · rw [hde] at hbind
        injection hbind with hbind
        rw [← hbind] at hlooka
        exact hkeysa a hlooka
    · rcases hexit with ⟨hbind, _⟩ | ⟨xa, a, hbind, hlooka, _⟩
      · rw [hdx] at hbind
        exact Option.noConfusion hbind
      · rw [hdx] at hbind
        injection hbind with hbind
        rw [← hbind] at hlooka
        exact hkeysa a hlooka
  · -- entry-tagged diagnostics come from states and name dangling refs
    intro n herr
    rcases lower_error_inv herr with hphase | hphase | hphase | hphase | hphase | hphase
    · obtain ⟨m, hm⟩ := buildStates_error hphase
      exact LowerError.noConfusion hm
    · obtain ⟨m, hm⟩ := buildSuperstates_error hphase
      exact LowerError.noConfusion hm
    · obtain ⟨states0, superstates0, hbs, hbss, hlserr⟩ := hphase
      obtain ⟨k, st0, hmem0, hlink⟩ := mapValuesE_error hlserr
      rcases linkState_error hlink with
        ⟨sup, _, _, heq⟩ | ⟨ea, hbind, hnone, heq⟩ | ⟨xa, _, _, heq⟩
      · exact LowerError.noConfusion heq
      · injection heq with heq
        subst heq
        obtain ⟨s, hlook, hdecl⟩ := Option.bind_eq_some.mp hbind
        refine ⟨⟨(k, s), lookupKey_mem hlook, hdecl⟩, ?_⟩
        intro hin
        rw [← buildActions_keys] at hin
        obtain ⟨v, hv⟩ := lookupKey_isSome_of_mem_keys hin
        rw [hv] at hnone
        exact Option.noConfusion hnone
      · exact LowerError.noConfusion heq
    · obtain ⟨states0, superstates0, hbs, hbss, hlsserr⟩ := hphase
      obtain ⟨k, lw0, hmem0, hlink⟩ := mapValuesE_error hlsserr
      rcases linkSuperstate_error hlink with
        ⟨sup, _, _, heq⟩ | ⟨ea, _, _, heq⟩ | ⟨xa, _, _, heq⟩ <;>
        exact LowerError.noConfusion heq
    · rcases scanStates_error hphase with hm | hm <;> exact LowerError.noConfusion hm
    · obtain ⟨acc1, _, hscerr⟩ := hphase
      rcases scanSuperstates_error hscerr with hm | hm <;>
        exact LowerError.noConfusion hm
  · -- exit-tagged diagnostics come from states and name dangling refs
    intro n herr
    rcases lower_error_inv herr with hphase | hphase | hphase | hphase | hphase | hphase
    · obtain ⟨m, hm⟩ := buildStates_error hphase
      exact LowerError.noConfusion hm
    · obtain ⟨m, hm⟩ := buildSuperstates_error hphase
      exact LowerError.noConfusion hm
    · obtain ⟨states0, superstates0, hbs, hbss, hlserr⟩ := hphase
      obtain ⟨k, st0, hmem0, hlink⟩ := mapValuesE_error hlserr
      rcases linkState_error hlink with
        ⟨sup, _, _, heq⟩ | ⟨ea, _, _, heq⟩ | ⟨xa, hbind, hnone, heq⟩
      · exact LowerError.noConfusion heq
      · exact LowerError.noConfusion heq
      · injection heq with heq
        subst heq
        obtain ⟨s, hlook, hdecl⟩ := Option.bind_eq_some.mp hbind
        refine ⟨⟨(k, s), lookupKey_mem hlook, hdecl⟩, ?_⟩
        intro hin
        rw [← buildActions_keys] at hin
        obtain ⟨v, hv⟩ := lookupKey_isSome_of_mem_keys hin
        rw [hv] at hnone
        exact Option.noConfusion hnone
    · obtain ⟨states0, superstates0, hbs, hbss, hlsserr⟩ := hphase
      obtain ⟨k, lw0, hmem0, hlink⟩ := mapValuesE_error hlsserr
      rcases linkSuperstate_error hlink with
        ⟨sup, _, _, heq⟩ | ⟨ea, _, _, heq⟩ | ⟨xa, _, _, heq⟩ <;>
        exact LowerError.noConfusion heq
    · rcases scanStates_error hphase with hm | hm <;> exact LowerError.noConfusion hm
    · obtain ⟨acc1, _, hscerr⟩ := hphase
      rcases scanSuperstates_error hscerr with hm | hm <;>
        exact LowerError.noConfusion hm
  · -- untagged diagnostics come from superstates and name dangling refs
    intro n herr
    rcases lower_error_inv herr with hphase | hphase | hphase | hphase | hphase | hphase
    · obtain ⟨m, hm⟩ := buildStates_error hphase
      exact LowerError.noConfusion hm
    · obtain ⟨m, hm⟩ := buildSuperstates_error hphase
      exact LowerError.noConfusion hm
    · obtain ⟨states0, superstates0, hbs, hbss, hlserr⟩ := hphase
      obtain ⟨k, st0, hmem0, hlink⟩ := mapValuesE_error hlserr
      rcases linkState_error hlink with
        ⟨sup, _, _, heq⟩ | ⟨ea, _, _, heq⟩ | ⟨xa, _, _, heq⟩ <;>
        exact LowerError.noConfusion heq
    · obtain ⟨states0, superstates0, hbs, hbss, hlsserr⟩ := hphase
      obtain ⟨k, lw0, hmem0, hlink⟩ := mapValuesE_error hlsserr
      rcases linkSuperstate_error hlink with
        ⟨sup, _, _, heq⟩ | ⟨ea, hbind, hnone, heq⟩ | ⟨xa, hbind, hnone, heq⟩
      · exact LowerError.noConfusion heq
      · injection heq with heq
        subst heq
        obtain ⟨ss, hlook, hdecl⟩ := Option.bind_eq_some.mp hbind
        refine ⟨⟨(k, ss), lookupKey_mem hlook, Or.inl hdecl⟩, ?_⟩
        intro hin
        rw [← buildActions_keys] at hin
        obtain ⟨v, hv⟩ := lookupKey_isSome_of_mem_keys hin
        rw [hv] at hnone
        exact Option.noConfusion hnone
      · injection heq with heq
        subst heq
        obtain ⟨ss, hlook, hdecl⟩ := Option.bind_eq_some.mp hbind
        refine ⟨⟨(k, ss), lookupKey_mem hlook, Or.inr hdecl⟩, ?_⟩
        intro hin
        rw [← buildActions_keys] at hin
        obtain ⟨v, hv⟩ := lookupKey_isSome_of_mem_keys hin
        rw [hv] at hnone
        exact Option.noConfusion hnone
    · rcases scanStates_error hphase with hm | hm <;> exact LowerError.noConfusion hm
    · obtain ⟨acc1, _, hscerr⟩ := hphase
      rcases scanSuperstates_error hscerr with hm | hm <;>
        exact LowerError.noConfusion hm

/-- Witness for the amended C4 at the blinky model. -/
theorem C4_action_linking_witness :
    ((blinkyModel.states.map Prod.fst).Nodup ∧
     (blinkyModel.superstates.map Prod.fst).Nodup) ∧
    ((∀ ir, lower blinkyModel = Except.ok ir →
      ∀ k s st, (k, s) ∈ blinkyModel.states → (k, st) ∈ ir.states →
        (s.entry_action = none → st.entry_action_call = ActionCall.emptyBlock) ∧
        (∀ n, s.entry_action = some n →
          ∃ aspec, (n, aspec) ∈ blinkyModel.actions ∧
            st.entry_action_call =
              ActionCall.call
                (lower_action aspec blinkyModel.state_machine).handler_call) ∧
        (s.exit_action = none → st.exit_action_call = ActionCall.emptyBlock) ∧
        (∀ n, s.exit_action = some n →
          ∃ aspec, (n, aspec) ∈ blinkyModel.actions ∧
            st.exit_action_call =
              ActionCall.call
                (lower_action aspec blinkyModel.state_machine).handler_call)) ∧
    (∀ ir, lower blinkyModel = Except.ok ir →
      ∀ k ss lw, (k, ss) ∈ blinkyModel.superstates → (k, lw) ∈ ir.superstates →
        (ss.entry_action = none → lw.entry_action_call = ActionCall.emptyBlock) ∧
        (∀ n, ss.entry_action = some n →
          ∃ aspec, (n, aspec) ∈ blinkyModel.actions ∧
            lw.entry_action_call =
              ActionCall.call
                (lower_action aspec blinkyModel.state_machine).handler_call) ∧
        (ss.exit_action = none → lw.exit_action_call = ActionCall.emptyBlock) ∧
        (∀ n, ss.exit_action = some n →
          ∃ aspec, (n, aspec) ∈ blinkyModel.actions ∧
            lw.exit_action_call =
              ActionCall.call
                (lower_action aspec blinkyModel.state_machine).handler_call)) ∧
    (∀ k s n, (k, s) ∈ blinkyModel.states →
      (s.entry_action = some n ∨ s.exit_action = some n) →
      n ∉ blinkyModel.actions.map Prod.fst →
        ∀ ir, lower blinkyModel ≠ Except.ok ir) ∧
    (∀ k ss n, (k, ss) ∈ blinkyModel.superstates →
      (ss.entry_action = some n ∨ ss.exit_action = some n) →
      n ∉ blinkyModel.actions.map Prod.fst →
        ∀ ir, lower blinkyModel ≠ Except.ok ir) ∧
    (∀ n, lower blinkyModel = Except.error (LowerError.entryActionNotFound n) →
      (∃ kv ∈ blinkyModel.states, kv.2.entry_action = some n) ∧
      n ∉ blinkyModel.actions.map Prod.fst) ∧
    (∀ n, lower blinkyModel = Except.error (LowerError.exitActionNotFound n) →
      (∃ kv ∈ blinkyModel.states, kv.2.exit_action = some n) ∧
      n ∉ blinkyModel.actions.map Prod.fst) ∧
    (∀ n, lower blinkyModel = Except.error (LowerError.actionNotFound n) →
      (∃ kv ∈ blinkyModel.superstates,
        kv.2.entry_action = some n ∨ kv.2.exit_action = some n) ∧
      n ∉ blinkyModel.actions.map Prod.fst)) :=
  ⟨⟨by decide, by decide⟩, C4_action_linking blinkyModel (by decide) (by decide)⟩

end Statig
